import Mathlib

/-!
Shallow embedding of the GIC Cinemas seat-allocation core
(src/seat_allocation.py, src/models.py, and the booking-detail seating-map
projection of src/main.py), together with proofs of the specification claims.

Modelling conventions:
- Python strings are modelled as Lean `String`s, manipulated through their
  underlying `List Char`; `str.strip` / `str.upper` are modelled by
  `pyStrip` / `pyUpper` over ASCII (the claims only involve ASCII inputs).
- Python ints are modelled as `Int` (counts can go negative through the
  public API); database row counts and seat numbers are `Nat`.
- The SQLAlchemy store is a value snapshot `DB` (lists of movie, seat and
  booking-seat records); `query(...).filter(...)` becomes `List.filter`,
  `order_by` becomes an insertion sort, `.first()` becomes `List.find?`,
  `.count()` becomes `List.length`.
- `get_middle_start_column` performs float arithmetic in Python; for
  0 ≤ seats_per_row ≤ 50 and 0 ≤ num_tickets every intermediate value is a
  multiple of 1/2 and hence exactly representable, so the computation is
  modelled by exact integer arithmetic: (s+1)/2 - t/2 + 0.5 = (s+2-t)/2, and
  `int` truncation of the (positive, in the reachable branch) value is floor,
  i.e. Lean's `Int` division.
- The error messages produced by `allocate_seats` are modelled by the
  inductive `AllocError`, one constructor per textual message, carrying the
  data interpolated into the message; the message formatting itself is not
  modelled.
-/

/-- Seat record (models.Seat): identity, owning movie, position, booked flag. -/
structure Seat where
  id : Nat
  movie_id : Nat
  row_letter : Char
  seat_number : Nat
  is_booked : Bool
deriving DecidableEq, Repr

/-- Movie record (models.Movie): identity and seating configuration. -/
structure Movie where
  id : Nat
  rows : Nat
  seats_per_row : Nat
deriving DecidableEq, Repr

/-- Booking-seat junction record (models.BookingSeat). -/
structure BookingSeatRec where
  booking_id : Nat
  seat_id : Nat
deriving DecidableEq, Repr

/-- Snapshot of the store used by one allocation / projection call. -/
structure DB where
  movies : List Movie
  seats : List Seat
  booking_seats : List BookingSeatRec
deriving DecidableEq, Repr

/-- Python's string.ascii_uppercase. -/
def ascii_uppercase : List Char := "ABCDEFGHIJKLMNOPQRSTUVWXYZ".data

/-- Python's str.strip for ASCII whitespace. -/
def pyStrip (l : List Char) : List Char :=
  ((l.dropWhile Char.isWhitespace).reverse.dropWhile Char.isWhitespace).reverse

/-- Python's str.upper for ASCII characters. -/
def pyUpper (l : List Char) : List Char := l.map Char.toUpper

/-- Decimal value of a digit string (models int() applied to the regex group). -/
def digitsToNat (l : List Char) : Nat := l.foldl (fun a c => a * 10 + (c.toNat - 48)) 0

/-- Embeds get_middle_start_column (seat_allocation.py:16-45).
Python computes center = (s+1)/2, start = center - t/2 + 0.5 in floats and
returns max(1, int(start)); in the reachable branch (t < s) the value
(s+2-t)/2 is positive, so int() truncation equals floor division. -/
def get_middle_start_column (seats_per_row num_tickets : Int) : Int :=
  if seats_per_row ≤ num_tickets then 1
  else max 1 ((seats_per_row + 2 - num_tickets) / 2)

/-- Embeds parse_seat_position (seat_allocation.py:48-71): empty input is
rejected up front, otherwise the stripped, upper-cased input must match
the regex pattern of one letter A-Z followed by one or more digits. -/
def parse_seat_position (position : String) : Option (Char × Nat) :=
  if position.data = [] then none
  else
    match pyUpper (pyStrip position.data) with
    | [] => none
    | c :: rest =>
      if c.isUpper && !rest.isEmpty && rest.all Char.isDigit then
        some (c, digitsToNat rest)
      else none

/-- Insert a seat into a list sorted by seat_number (models SQL order_by). -/
def insertBySeatNumber (s : Seat) : List Seat → List Seat
  | [] => [s]
  | t :: ts =>
    if s.seat_number ≤ t.seat_number then s :: t :: ts else t :: insertBySeatNumber s ts

/-- Sort a seat list ascending by seat_number (models SQL order_by seat_number,
and the explicit seats_to_right.sort in get_seats_from_position). -/
def sortBySeatNumber (l : List Seat) : List Seat := l.foldr insertBySeatNumber []

/-- Insert a number into a strictly ascending list, dropping duplicates. -/
def insertNum (n : Nat) : List Nat → List Nat
  | [] => [n]
  | m :: ms => if n < m then n :: m :: ms else if n = m then m :: ms else m :: insertNum n ms

/-- Sorted list of the distinct seat numbers of a seat list (models
sorted(available_map.keys()) in select_centered_seats). -/
def sortedNums (l : List Seat) : List Nat := l.foldr (fun s acc => insertNum s.seat_number acc) []

/-- Insert a character into a strictly descending list, dropping duplicates. -/
def insertDesc (c : Char) : List Char → List Char
  | [] => [c]
  | d :: ds => if d < c then c :: d :: ds else if c = d then d :: ds else d :: insertDesc c ds

/-- Descending sorted distinct characters (models sorted(set(...), reverse=True)). -/
def sortDescDedup (l : List Char) : List Char := l.foldr insertDesc []

/-- Embeds db.query(Movie).filter(Movie.id == movie_id).first(). -/
def findMovie (db : DB) (movie_id : Nat) : Option Movie :=
  db.movies.find? (fun m => m.id == movie_id)

/-- Embeds get_available_seats_in_row (seat_allocation.py:74-94). -/
def get_available_seats_in_row (db : DB) (movie_id : Nat) (row_letter : Char) : List Seat :=
  sortBySeatNumber
    (db.seats.filter fun s => s.movie_id == movie_id && s.row_letter == row_letter && !s.is_booked)

/-- Embeds get_row_letters_for_movie (seat_allocation.py:97-124):
string.ascii_uppercase[:movie.rows], back row (A) first. -/
def get_row_letters_for_movie (db : DB) (movie_id : Nat) : List Char :=
  match findMovie db movie_id with
  | none => []
  | some movie => ascii_uppercase.take movie.rows

/-- Lookup of the seat stored under a number in the dict built by
select_centered_seats; a Python dict comprehension keeps the last record
written for each key. -/
def seatForNumber (seats : List Seat) (n : Nat) : Option Seat :=
  (seats.filter fun s => s.seat_number == n).getLast?

/-- Embeds the inner consecutiveness check of select_centered_seats
(seat_allocation.py:210-214): positions i .. i+count-1 of nums hold
literally consecutive integers. -/
def consecutiveAt (nums : List Nat) (i count : Nat) : Bool :=
  (List.range (count - 1)).all fun j => nums.getD (i + j + 1) 0 == nums.getD (i + j) 0 + 1

/-- Distance |nums[i] - preferred_start| used by select_centered_seats. -/
def distOf (nums : List Nat) (preferred_start : Int) (i : Nat) : Int :=
  |(nums.getD i 0 : Int) - preferred_start|

/-- Loop body of the best-start scan of select_centered_seats
(seat_allocation.py:208-222): the accumulator holds (best_start_idx,
best_distance), with none modelling best_distance = float('inf'); strict
less-than keeps the earliest index among equal distances. -/
def scanStep (nums : List Nat) (count : Nat) (preferred_start : Int)
    (acc : Nat × Option Int) (i : Nat) : Nat × Option Int :=
  if consecutiveAt nums i count then
    match acc.2 with
    | none => (i, some (distOf nums preferred_start i))
    | some b =>
      if distOf nums preferred_start i < b then (i, some (distOf nums preferred_start i))
      else acc
  else acc

/-- Embeds the best-start scan of select_centered_seats
(seat_allocation.py:204-222): fold scanStep over all window start indices
range(len(available_numbers) - count + 1), starting from (0, inf). -/
def bestScan (nums : List Nat) (count : Nat) (preferred_start : Int) : Nat × Option Int :=
  (List.range (nums.length - count + 1)).foldl (scanStep nums count preferred_start) (0, none)

/-- Embeds select_centered_seats (seat_allocation.py:178-226). -/
def select_centered_seats (available_seats : List Seat) (count : Int)
    (preferred_start : Int) : List Seat :=
  if available_seats = [] ∨ count ≤ 0 then []
  else
    let available_numbers := sortedNums available_seats
    if (available_numbers.length : Int) ≤ count then available_seats.take count.toNat
    else
      let best := (bestScan available_numbers count.toNat preferred_start).1
      let selected_numbers := (available_numbers.drop best).take count.toNat
      selected_numbers.filterMap (seatForNumber available_seats)

/-- Embeds the row loop of get_default_seats (seat_allocation.py:154-173). -/
def defaultLoop (db : DB) (movie : Movie) : List Char → Int → List Seat
  | [], _ => []
  | r :: rs, remaining =>
    if remaining ≤ 0 then []
    else
      let available := get_available_seats_in_row db movie.id r
      if available = [] then defaultLoop db movie rs remaining
      else
        let to_take := min remaining (available.length : Int)
        let start_col := get_middle_start_column (movie.seats_per_row : Int) to_take
        let selected := select_centered_seats available to_take start_col
        selected ++ defaultLoop db movie rs (remaining - (selected.length : Int))

/-- Embeds get_default_seats (seat_allocation.py:127-175). -/
def get_default_seats (db : DB) (movie_id : Nat) (num_tickets : Int) : List Seat :=
  match findMovie db movie_id with
  | none => []
  | some movie => defaultLoop db movie (get_row_letters_for_movie db movie_id) num_tickets

/-- Embeds the row loop of get_seats_from_position (seat_allocation.py:270-294).
The Bool argument is the is_first_row flag; note that a row with no available
seats is skipped by `continue` before the flag is cleared, so the flag stays
true until the first row that actually has available seats. -/
def positionalLoop (db : DB) (movie : Movie) (start_col : Int) :
    List Char → Int → Bool → List Seat
  | [], _, _ => []
  | r :: rs, remaining, is_first =>
    if remaining ≤ 0 then []
    else
      let available := get_available_seats_in_row db movie.id r
      if available = [] then positionalLoop db movie start_col rs remaining is_first
      else
        if is_first then
          let seats_to_right :=
            sortBySeatNumber (available.filter fun s => start_col ≤ (s.seat_number : Int))
          let to_take := min remaining (seats_to_right.length : Int)
          seats_to_right.take to_take.toNat ++
            positionalLoop db movie start_col rs (remaining - to_take) false
        else
          let to_take := min remaining (available.length : Int)
          let start_col_centered := get_middle_start_column (movie.seats_per_row : Int) to_take
          let selected := select_centered_seats available to_take start_col_centered
          selected ++
            positionalLoop db movie start_col rs (remaining - (selected.length : Int)) false

/-- First index of a character in a list (models list.index plus the
membership guard of seat_allocation.py:263-265). -/
def indexOfRow (c : Char) : List Char → Option Nat
  | [] => none
  | d :: ds => if c = d then some 0 else (indexOfRow c ds).map (· + 1)

/-- Embeds get_seats_from_position (seat_allocation.py:229-296). -/
def get_seats_from_position (db : DB) (movie_id : Nat) (start_row : Char)
    (start_col : Int) (num_tickets : Int) : List Seat :=
  match findMovie db movie_id with
  | none => []
  | some movie =>
    let all_rows := ascii_uppercase.take movie.rows
    match indexOfRow start_row all_rows with
    | none => []
    | some start_idx => positionalLoop db movie start_col (all_rows.drop start_idx) num_tickets true

/-- Error outcomes of allocate_seats, one constructor per distinct message
produced at seat_allocation.py:322, 331-335, 341-345, 352-356, 360-364 and
371-375, carrying the data interpolated into the message. -/
inductive AllocError where
  | NotFound : AllocError
  | InsufficientCapacity (available : Nat) : AllocError
  | InvalidFormat (position : String) : AllocError
  | RowOutOfRange (row : Char) : AllocError
  | ColumnOutOfRange (column : Nat) : AllocError
  | FragmentationFailure (requested : Int) : AllocError
deriving DecidableEq, Repr

/-- Result dictionary of allocate_seats: success flag, seat list, error. -/
structure AllocResult where
  success : Bool
  seats : List Seat
  error : Option AllocError
deriving DecidableEq, Repr

/-- Embeds the total-availability count query of allocate_seats
(seat_allocation.py:325-328). -/
def total_available_count (db : DB) (movie_id : Nat) : Nat :=
  (db.seats.filter fun s => s.movie_id == movie_id && !s.is_booked).length

/-- Final length check of allocate_seats (seat_allocation.py:370-377). -/
def finishAllocation (seats : List Seat) (num_tickets : Int) : AllocResult :=
  if (seats.length : Int) < num_tickets then
    ⟨false, [], some (AllocError.FragmentationFailure num_tickets)⟩
  else ⟨true, seats, none⟩

/-- Embeds allocate_seats (seat_allocation.py:299-377). Python's
`if start_position:` is false both for None and for the empty string, so a
present-but-empty start position takes the default-allocation path. -/
def allocate_seats (db : DB) (movie_id : Nat) (num_tickets : Int)
    (start_position : Option String) : AllocResult :=
  match findMovie db movie_id with
  | none => ⟨false, [], some AllocError.NotFound⟩
  | some movie =>
    let total_available := total_available_count db movie_id
    if (total_available : Int) < num_tickets then
      ⟨false, [], some (AllocError.InsufficientCapacity total_available)⟩
    else
      match start_position with
      | none => finishAllocation (get_default_seats db movie_id num_tickets) num_tickets
      | some pos =>
        if pos.data = [] then
          finishAllocation (get_default_seats db movie_id num_tickets) num_tickets
        else
          match parse_seat_position pos with
          | none => ⟨false, [], some (AllocError.InvalidFormat pos)⟩
          | some (row_letter, col_number) =>
            if row_letter ∉ ascii_uppercase.take movie.rows then
              ⟨false, [], some (AllocError.RowOutOfRange row_letter)⟩
            else if col_number < 1 ∨ movie.seats_per_row < col_number then
              ⟨false, [], some (AllocError.ColumnOutOfRange col_number)⟩
            else
              finishAllocation
                (get_seats_from_position db movie_id row_letter (col_number : Int) num_tickets)
                num_tickets

/-- Embeds get_booking_seating_map (main.py:463-520), returning for each row
letter (descending) the slots 1..seats_per_row with their marker character:
o for the viewed booking's seats, # for other bookings' seats, . otherwise. -/
def get_booking_seating_map (db : DB) (movie : Movie) (viewing_booking_id : Nat) :
    List (Char × List (Nat × Char)) :=
  let all_seats := db.seats.filter (fun s => s.movie_id == movie.id)
  let viewed_ids := (db.booking_seats.filter
    (fun bs => bs.booking_id == viewing_booking_id)).map (fun bs => bs.seat_id)
  let all_booked := db.booking_seats.filter
    (fun bs => db.seats.any (fun s => s.id == bs.seat_id && s.movie_id == movie.id))
  let other_ids := (all_booked.map (fun bs => bs.seat_id)).filter
    (fun i => !viewed_ids.contains i)
  let row_letters := sortDescDedup (all_seats.map (fun s => s.row_letter))
  row_letters.map fun r =>
    (r, (List.range movie.seats_per_row).map fun k =>
      match all_seats.find? (fun s => s.row_letter == r && s.seat_number == k + 1) with
      | some seat =>
        (k + 1,
          if viewed_ids.contains seat.id then 'o'
          else if other_ids.contains seat.id then '#'
          else '.')
      | none => (k + 1, '.'))

/-- Freshly configured venue (models create_seats_for_movie in main.py:61-75):
movie id 1, all rows times seats_per_row seats created row-major, unbooked. -/
def mkFreshDB (rows seats_per_row : Nat) : DB :=
  { movies := [⟨1, rows, seats_per_row⟩],
    seats := (ascii_uppercase.take rows).flatMap
      (fun r => (List.range seats_per_row).map fun k => ⟨0, 1, r, k + 1, false⟩),
    booking_seats := [] }

/-! ### Lemmas about the sorting helpers -/

theorem mem_insertBySeatNumber {s t : Seat} {l : List Seat} :
    s ∈ insertBySeatNumber t l ↔ s = t ∨ s ∈ l := by
  induction l with
  | nil => simp [insertBySeatNumber]
  | cons u us ih =>
    simp only [insertBySeatNumber]
    split
    · simp
    · simp only [List.mem_cons, ih]
      tauto

theorem sortBySeatNumber_perm (l : List Seat) : (sortBySeatNumber l).Perm l := by
  induction l with
  | nil => simp [sortBySeatNumber]
  | cons s rest ih =>
    have key : ∀ (t : Seat) (m : List Seat), (insertBySeatNumber t m).Perm (t :: m) := by
      intro t m
      induction m with
      | nil => simp [insertBySeatNumber]
      | cons u us ihm =>
        simp only [insertBySeatNumber]
        split
        · exact List.Perm.refl _
        · exact (ihm.cons u).trans (List.Perm.swap t u us)
    have : sortBySeatNumber (s :: rest) = insertBySeatNumber s (sortBySeatNumber rest) := rfl
    rw [this]
    exact (key s (sortBySeatNumber rest)).trans (ih.cons s)

theorem mem_sortBySeatNumber {s : Seat} {l : List Seat} :
    s ∈ sortBySeatNumber l ↔ s ∈ l :=
  (sortBySeatNumber_perm l).mem_iff

theorem sortBySeatNumber_eq_self {l : List Seat}
    (h : List.Chain' (fun a b => a.seat_number ≤ b.seat_number) l) :
    sortBySeatNumber l = l := by
  induction l with
  | nil => rfl
  | cons s rest ih =>
    have hrest : sortBySeatNumber rest = rest := ih h.tail
    have : sortBySeatNumber (s :: rest) = insertBySeatNumber s (sortBySeatNumber rest) := rfl
    rw [this, hrest]
    cases rest with
    | nil => rfl
    | cons t ts =>
      have hle : s.seat_number ≤ t.seat_number := List.chain'_cons.mp h |>.1
      simp [insertBySeatNumber, hle]

theorem mem_insertNum {m n : Nat} {l : List Nat} :
    m ∈ insertNum n l ↔ m = n ∨ m ∈ l := by
  induction l with
  | nil => simp [insertNum]
  | cons u us ih =>
    simp only [insertNum]
    split
    · simp
    · split
      · rename_i hlt heq
        subst heq
        simp only [List.mem_cons]
        tauto
      · simp only [List.mem_cons, ih]
        tauto

theorem chain_insertNum {n : Nat} {l : List Nat}
    (h : List.Chain' (· < ·) l) : List.Chain' (· < ·) (insertNum n l) := by
  induction l with
  | nil => simp [insertNum]
  | cons u us ih =>
    simp only [insertNum]
    split
    · exact List.chain'_cons.mpr ⟨by omega, h⟩
    · split
      · exact h
      · rename_i hnlt hne
        have hlt : u < n := by omega
        have htail := ih h.tail
        refine List.chain'_cons'.mpr ⟨?_, htail⟩
        intro y hy
        cases us with
        | nil =>
          simp only [insertNum, List.head?_cons, Option.mem_def, Option.some.injEq] at hy
          omega
        | cons v vs =>
          have huv : u < v := (List.chain'_cons.mp h).1
          simp only [insertNum] at hy
          split at hy
          · simp only [List.head?_cons, Option.mem_def, Option.some.injEq] at hy
            omega
          · split at hy
            · simp only [List.head?_cons, Option.mem_def, Option.some.injEq] at hy
              omega
            · simp only [List.head?_cons, Option.mem_def, Option.some.injEq] at hy
              omega

theorem sortedNums_chain (l : List Seat) : List.Chain' (· < ·) (sortedNums l) := by
  induction l with
  | nil => simp [sortedNums]
  | cons s rest ih => exact chain_insertNum ih

theorem mem_sortedNums {n : Nat} {l : List Seat} :
    n ∈ sortedNums l ↔ n ∈ l.map (fun s => s.seat_number) := by
  induction l with
  | nil => simp [sortedNums]
  | cons s rest ih =>
    have : sortedNums (s :: rest) = insertNum s.seat_number (sortedNums rest) := rfl
    rw [this]
    simp [mem_insertNum, ih]

theorem sortedNums_eq_of_chain {l : List Seat}
    (h : List.Chain' (fun a b => a.seat_number < b.seat_number) l) :
    sortedNums l = l.map (fun s => s.seat_number) := by
  induction l with
  | nil => rfl
  | cons s rest ih =>
    have hrest : sortedNums rest = rest.map (fun s => s.seat_number) := ih h.tail
    have hdef : sortedNums (s :: rest) = insertNum s.seat_number (sortedNums rest) := rfl
    rw [hdef, hrest]
    cases rest with
    | nil => rfl
    | cons t ts =>
      have hlt : s.seat_number < t.seat_number := (List.chain'_cons.mp h).1
      simp [insertNum, hlt]

theorem sortedNums_length_of_nodup {l : List Seat}
    (h : (l.map (fun s => s.seat_number)).Nodup) :
    (sortedNums l).length = l.length := by
  induction l with
  | nil => rfl
  | cons s rest ih =>
    have hdef : sortedNums (s :: rest) = insertNum s.seat_number (sortedNums rest) := rfl
    have hnotm : s.seat_number ∉ sortedNums rest := by
      rw [mem_sortedNums]
      exact (List.nodup_cons.mp (by simpa using h)).1
    have hlen : ∀ (n : Nat) (m : List Nat), n ∉ m → (insertNum n m).length = m.length + 1 := by
      intro n m
      induction m with
      | nil => simp [insertNum]
      | cons u us ihm =>
        intro hnm
        simp only [insertNum]
        split
        · simp
        · split
          · exact absurd (by rename_i h2; exact h2 ▸ List.mem_cons_self u us) hnm
          · simp only [List.length_cons]
            rw [ihm (fun hc => hnm (List.mem_cons_of_mem u hc))]
    rw [hdef, hlen _ _ hnotm, ih (List.nodup_cons.mp (by simpa using h)).2]
    rfl

theorem mem_insertDesc {c d : Char} {l : List Char} :
    c ∈ insertDesc d l ↔ c = d ∨ c ∈ l := by
  induction l with
  | nil => simp [insertDesc]
  | cons u us ih =>
    simp only [insertDesc]
    split
    · simp
    · split
      · rename_i hlt heq
        subst heq
        simp only [List.mem_cons]
        tauto
      · simp only [List.mem_cons, ih]
        tauto

theorem chain_insertDesc {c : Char} {l : List Char}
    (h : List.Chain' (fun a b => b < a) l) :
    List.Chain' (fun a b => b < a) (insertDesc c l) := by
  induction l with
  | nil => simp [insertDesc]
  | cons u us ih =>
    simp only [insertDesc]
    split
    · exact List.chain'_cons.mpr ⟨by assumption, h⟩
    · split
      · exact h
      · rename_i hnlt hne
        have hlt : c < u := by
          rcases lt_trichotomy c u with h1 | h1 | h1
          · exact h1
          · exact absurd h1 hne
          · exact absurd h1 hnlt
        have htail := ih h.tail
        refine List.chain'_cons'.mpr ⟨?_, htail⟩
        intro y hy
        cases us with
        | nil =>
          simp only [insertDesc, List.head?_cons, Option.mem_def, Option.some.injEq] at hy
          subst hy
          exact hlt
        | cons v vs =>
          have huv : v < u := (List.chain'_cons.mp h).1
          simp only [insertDesc] at hy
          split at hy
          · simp only [List.head?_cons, Option.mem_def, Option.some.injEq] at hy
            subst hy
            exact hlt
          · split at hy
            · simp only [List.head?_cons, Option.mem_def, Option.some.injEq] at hy
              subst hy
              exact huv
            · simp only [List.head?_cons, Option.mem_def, Option.some.injEq] at hy
              subst hy
              exact huv

theorem sortDescDedup_chain (l : List Char) :
    List.Chain' (fun a b => b < a) (sortDescDedup l) := by
  induction l with
  | nil => simp [sortDescDedup]
  | cons c rest ih => exact chain_insertDesc ih

theorem mem_sortDescDedup {c : Char} {l : List Char} :
    c ∈ sortDescDedup l ↔ c ∈ l := by
  induction l with
  | nil => simp [sortDescDedup]
  | cons d rest ih =>
    have : sortDescDedup (d :: rest) = insertDesc d (sortDescDedup rest) := rfl
    rw [this]
    simp [mem_insertDesc, ih]

/-! ### Lemmas about seatForNumber -/

theorem seatForNumber_mem {l : List Seat} {n : Nat} {s : Seat}
    (h : seatForNumber l n = some s) : s ∈ l ∧ s.seat_number = n := by
  unfold seatForNumber at h
  rcases List.getLast?_eq_some_iff.mp h with ⟨ys, hys⟩
  have hmem : s ∈ l.filter (fun s => s.seat_number == n) := by
    rw [hys]; exact List.mem_append_right ys (List.mem_singleton_self s)
  rcases List.mem_filter.mp hmem with ⟨h1, h2⟩
  exact ⟨h1, by simpa using h2⟩

theorem seatForNumber_isSome {l : List Seat} {n : Nat}
    (h : n ∈ l.map (fun s => s.seat_number)) : (seatForNumber l n).isSome := by
  rcases List.mem_map.mp h with ⟨s, hs, hn⟩
  unfold seatForNumber
  rw [List.getLast?_isSome]
  intro hnil
  have : s ∈ l.filter (fun s => s.seat_number == n) :=
    List.mem_filter.mpr ⟨hs, by simp [hn]⟩
  rw [hnil] at this
  exact absurd this (List.not_mem_nil s)

theorem seatForNumber_of_nodup {l : List Seat} {s : Seat}
    (hn : (l.map (fun s => s.seat_number)).Nodup) (hs : s ∈ l) :
    seatForNumber l s.seat_number = some s := by
  unfold seatForNumber
  have : l.filter (fun t => t.seat_number == s.seat_number) = [s] := by
    induction l with
    | nil => exact absurd hs (List.not_mem_nil s)
    | cons u us ih =>
      have hcons : u.seat_number ∉ us.map (fun s => s.seat_number) ∧
          (us.map (fun s => s.seat_number)).Nodup := by
        rw [List.map_cons, List.nodup_cons] at hn
        exact hn
      rcases List.mem_cons.mp hs with heq | hmem
      · subst heq
        have : us.filter (fun t => t.seat_number == s.seat_number) = [] := by
          rw [List.filter_eq_nil_iff]
          intro t ht hteq
          exact hcons.1 (List.mem_map.mpr ⟨t, ht, by simpa using hteq⟩)
        simp [List.filter_cons, this]
      · have hne : ¬(u.seat_number == s.seat_number) = true := by
          intro hc
          exact hcons.1
            (List.mem_map.mpr ⟨s, hmem, (Nat.beq_eq_true_eq _ _ ▸ hc : u.seat_number = s.seat_number).symm⟩)
        simp only [List.filter_cons]
        rw [if_neg hne]
        exact ih hcons.2 hmem
  rw [this]
  rfl

/-! ### Invariant of the best-start scan -/

theorem scanFold_inv (nums : List Nat) (count : Nat) (pref : Int) (k : Nat) :
    (((List.range k).foldl (scanStep nums count pref) (0, none)).2 = none →
      ((List.range k).foldl (scanStep nums count pref) (0, none)).1 = 0 ∧
      ∀ i < k, consecutiveAt nums i count = false) ∧
    (∀ d, ((List.range k).foldl (scanStep nums count pref) (0, none)).2 = some d →
      ((List.range k).foldl (scanStep nums count pref) (0, none)).1 < k ∧
      consecutiveAt nums ((List.range k).foldl (scanStep nums count pref) (0, none)).1 count
        = true ∧
      d = distOf nums pref ((List.range k).foldl (scanStep nums count pref) (0, none)).1 ∧
      (∀ i < k, consecutiveAt nums i count = true → d ≤ distOf nums pref i) ∧
      (∀ i < ((List.range k).foldl (scanStep nums count pref) (0, none)).1,
        consecutiveAt nums i count = true → d < distOf nums pref i)) := by
  induction k with
  | zero =>
    constructor
    · intro _
      exact ⟨rfl, fun i hi => absurd hi (Nat.not_lt_zero i)⟩
    · intro d hd
      simp [List.range_zero, List.foldl_nil] at hd
  | succ k ih =>
    rw [List.range_succ, List.foldl_append, List.foldl_cons, List.foldl_nil]
    set prev := (List.range k).foldl (scanStep nums count pref) (0, none) with hprev
    by_cases hc : consecutiveAt nums k count = true
    · rcases hsnd : prev.2 with _ | b
      · -- previous best is infinity: take index k
        have hstep : scanStep nums count pref prev k = (k, some (distOf nums pref k)) := by
          unfold scanStep
          rw [hsnd, if_pos hc]
        rw [hstep]
        constructor
        · intro h
          simp at h
        · intro d hd
          simp only [Option.some.injEq] at hd
          subst hd
          have hnone := ih.1 hsnd
          refine ⟨Nat.lt_succ_self k, hc, rfl, ?_, ?_⟩
          · intro i hi hcons
            rcases Nat.lt_succ_iff_lt_or_eq.mp hi with hik | hik
            · exact absurd hcons (by simp [hnone.2 i hik])
            · subst hik
              exact le_refl _
          · intro i hi hcons
            exact absurd hcons (by simp [hnone.2 i (lt_of_lt_of_le hi (by omega))])
      · have hsome := ih.2 b hsnd
        by_cases hlt : distOf nums pref k < b
        · have hstep : scanStep nums count pref prev k = (k, some (distOf nums pref k)) := by
            simp [scanStep, hsnd, hc, hlt]
          rw [hstep]
          constructor
          · intro h
            simp at h
          · intro d hd
            simp only [Option.some.injEq] at hd
            subst hd
            refine ⟨Nat.lt_succ_self k, hc, rfl, ?_, ?_⟩
            · intro i hi hcons
              rcases Nat.lt_succ_iff_lt_or_eq.mp hi with hik | hik
              · exact le_of_lt (lt_of_lt_of_le hlt (hsome.2.2.2.1 i hik hcons))
              · subst hik
                exact le_refl _
            · intro i hi hcons
              exact lt_of_lt_of_le hlt (hsome.2.2.2.1 i hi hcons)
        · have hstep : scanStep nums count pref prev k = prev := by
            simp [scanStep, hsnd, hc, hlt]
          rw [hstep]
          constructor
          · intro h
            rw [hsnd] at h
            simp at h
          · intro d hd
            rw [hsnd] at hd
            simp only [Option.some.injEq] at hd
            subst hd
            refine ⟨Nat.lt_succ_of_lt hsome.1, hsome.2.1, hsome.2.2.1, ?_, hsome.2.2.2.2⟩
            intro i hi hcons
            rcases Nat.lt_succ_iff_lt_or_eq.mp hi with hik | hik
            · exact hsome.2.2.2.1 i hik hcons
            · subst hik
              exact le_of_not_lt hlt
    · have hstep : scanStep nums count pref prev k = prev := by
        unfold scanStep
        rw [if_neg hc]
      rw [hstep]
      constructor
      · intro h
        have hnone := ih.1 h
        refine ⟨hnone.1, ?_⟩
        intro i hi
        rcases Nat.lt_succ_iff_lt_or_eq.mp hi with hik | hik
        · exact hnone.2 i hik
        · subst hik
          exact Bool.eq_false_iff.mpr hc
      · intro d hd
        have hsome := ih.2 d hd
        refine ⟨Nat.lt_succ_of_lt hsome.1, hsome.2.1, hsome.2.2.1, ?_, hsome.2.2.2.2⟩
        intro i hi hcons
        rcases Nat.lt_succ_iff_lt_or_eq.mp hi with hik | hik
        · exact hsome.2.2.2.1 i hik hcons
        · subst hik
          exact absurd hcons hc

theorem bestScan_fst_add_le {nums : List Nat} {count : Nat} {pref : Int}
    (hcount : count ≤ nums.length) :
    (bestScan nums count pref).1 + count ≤ nums.length := by
  have h := scanFold_inv nums count pref (nums.length - count + 1)
  unfold bestScan
  rcases hsnd : ((List.range (nums.length - count + 1)).foldl
      (scanStep nums count pref) (0, none)).2 with _ | d
  · have := (h.1 hsnd).1
    omega
  · have := (h.2 d hsnd).1
    omega

/-! ### Consecutive windows and the structure of select_centered_seats -/

theorem consecutiveAt_iff {nums : List Nat} {i count : Nat} :
    consecutiveAt nums i count = true ↔
      ∀ j < count - 1, nums.getD (i + j + 1) 0 = nums.getD (i + j) 0 + 1 := by
  unfold consecutiveAt
  rw [List.all_eq_true]
  constructor
  · intro h j hj
    exact beq_iff_eq.mp (h j (List.mem_range.mpr hj))
  · intro h j hj
    exact beq_iff_eq.mpr (h j (List.mem_range.mp hj))

theorem consecutive_getD {nums : List Nat} {b count : Nat}
    (hc : consecutiveAt nums b count = true) :
    ∀ j < count, nums.getD (b + j) 0 = nums.getD b 0 + j := by
  intro j
  induction j with
  | zero => intro _; rfl
  | succ j ih =>
    intro hj
    have hstep := consecutiveAt_iff.mp hc j (by omega)
    have hprev := ih (by omega)
    rw [← Nat.add_assoc]
    omega

theorem run_eq_range' {nums : List Nat} {b count : Nat}
    (hb : b + count ≤ nums.length) (hc : consecutiveAt nums b count = true) :
    (nums.drop b).take count = List.range' (nums.getD b 0) count := by
  apply List.ext_getElem
  · rw [List.length_take, List.length_drop, List.length_range']
    omega
  · intro i h1 h2
    have hi : i < count := by
      rw [List.length_take, List.length_drop] at h1
      omega
    have hbi : b + i < nums.length := by omega
    rw [List.getElem_take, List.getElem_drop, List.getElem_range']
    have := consecutive_getD hc i hi
    rw [List.getD_eq_getElem nums 0 hbi] at this
    omega

theorem filterMap_seatForNumber_of_mem {l : List Seat} {sub : List Seat}
    (hnodup : (l.map (fun s => s.seat_number)).Nodup)
    (hsub : ∀ s ∈ sub, s ∈ l) :
    (sub.map (fun s => s.seat_number)).filterMap (seatForNumber l) = sub := by
  induction sub with
  | nil => rfl
  | cons s rest ih =>
    rw [List.map_cons, List.filterMap_cons]
    rw [seatForNumber_of_nodup hnodup (hsub s (List.mem_cons_self s rest))]
    rw [ih (fun t ht => hsub t (List.mem_cons_of_mem s ht))]

theorem length_filterMap_seatForNumber {l : List Seat} {ns : List Nat}
    (h : ∀ n ∈ ns, n ∈ l.map (fun s => s.seat_number)) :
    (ns.filterMap (seatForNumber l)).length = ns.length := by
  induction ns with
  | nil => rfl
  | cons n rest ih =>
    rw [List.filterMap_cons]
    rcases hf : seatForNumber l n with _ | s
    · have := seatForNumber_isSome (h n (List.mem_cons_self n rest))
      rw [hf] at this
      simp at this
    · rw [List.length_cons, ih (fun m hm => h m (List.mem_cons_of_mem n hm))]
      rfl

theorem filterMap_seatForNumber_nodup (l : List Seat) {ns : List Nat}
    (h : ns.Nodup) : (ns.filterMap (seatForNumber l)).Nodup := by
  induction ns with
  | nil => simp
  | cons n rest ih =>
    rcases List.nodup_cons.mp h with ⟨hn, hrest⟩
    rw [List.filterMap_cons]
    rcases hf : seatForNumber l n with _ | s
    · exact ih hrest
    · rw [List.nodup_cons]
      refine ⟨?_, ih hrest⟩
      intro hmem
      rcases List.mem_filterMap.mp hmem with ⟨m, hm, hms⟩
      have h1 : s.seat_number = n := (seatForNumber_mem hf).2
      have h2 : s.seat_number = m := (seatForNumber_mem hms).2
      exact hn (by rw [← h1, h2]; exact hm)

theorem select_centered_subset {l : List Seat} {cnt pref : Int} {s : Seat}
    (h : s ∈ select_centered_seats l cnt pref) : s ∈ l := by
  simp only [select_centered_seats] at h
  split at h
  · exact absurd h (List.not_mem_nil s)
  · split at h
    · exact List.mem_of_mem_take h
    · rcases List.mem_filterMap.mp h with ⟨n, _, hns⟩
      exact (seatForNumber_mem hns).1

theorem select_centered_nodup {l : List Seat} {cnt pref : Int}
    (hnodup : (l.map (fun s => s.seat_number)).Nodup) :
    (select_centered_seats l cnt pref).Nodup := by
  simp only [select_centered_seats]
  split
  · exact List.nodup_nil
  · split
    · exact ((List.take_sublist _ _).nodup) (List.Nodup.of_map _ hnodup)
    · apply filterMap_seatForNumber_nodup
      have hchain := sortedNums_chain l
      have hpair : (sortedNums l).Pairwise (· < ·) := List.chain'_iff_pairwise.mp hchain
      have : (sortedNums l).Nodup := hpair.imp Nat.ne_of_lt
      exact ((List.take_sublist _ _).trans (List.drop_sublist _ _)).nodup this

theorem select_centered_length {l : List Seat} {cnt pref : Int}
    (hnodup : (l.map (fun s => s.seat_number)).Nodup)
    (h1 : 0 < cnt) (h2 : cnt ≤ (l.length : Int)) :
    (select_centered_seats l cnt pref).length = cnt.toNat := by
  have hlen : (sortedNums l).length = l.length := sortedNums_length_of_nodup hnodup
  simp only [select_centered_seats]
  split
  · rename_i hcond
    rcases hcond with hnil | hle
    · subst hnil
      simp at h2
      omega
    · omega
  · split
    · rename_i hle
      rw [hlen] at hle
      have : cnt = (l.length : Int) := le_antisymm h2 (by exact_mod_cast hle)
      rw [List.length_take]
      omega
    · rename_i hgt
      rw [hlen] at hgt
      have hcnt_lt : cnt.toNat < (sortedNums l).length := by
        rw [hlen]
        omega
      have hb := @bestScan_fst_add_le (sortedNums l) cnt.toNat pref (le_of_lt hcnt_lt)
      rw [length_filterMap_seatForNumber]
      · rw [List.length_take, List.length_drop]
        omega
      · intro n hn
        have : n ∈ sortedNums l :=
          List.mem_of_mem_drop (List.mem_of_mem_take hn)
        exact mem_sortedNums.mp this

theorem chain_map_num_of_asc {l : List Seat}
    (hasc : List.Chain' (fun a b => a.seat_number < b.seat_number) l) :
    List.Chain' (· < ·) (l.map (fun s => s.seat_number)) :=
  List.chain'_map (fun s : Seat => s.seat_number) |>.mpr hasc

theorem nodup_map_num_of_asc {l : List Seat}
    (hasc : List.Chain' (fun a b => a.seat_number < b.seat_number) l) :
    (l.map (fun s => s.seat_number)).Nodup :=
  (List.chain'_iff_pairwise.mp (chain_map_num_of_asc hasc)).imp Nat.ne_of_lt

theorem sorted_getD_mono {nums : List Nat} (hchain : List.Chain' (· < ·) nums)
    {b i : Nat} (hbi : b ≤ i) (hi : i < nums.length) :
    nums.getD b 0 ≤ nums.getD i 0 := by
  rcases Nat.eq_or_lt_of_le hbi with heq | hlt
  · subst heq; exact le_refl _
  · have hpair := List.chain'_iff_pairwise.mp hchain
    have := List.pairwise_iff_getElem.mp hpair b i (lt_trans hlt hi) hi hlt
    rw [List.getD_eq_getElem nums 0 (lt_trans hlt hi), List.getD_eq_getElem nums 0 hi]
    exact le_of_lt this

theorem select_centered_eq_slice {l : List Seat} {c : Nat} {pref : Int}
    (hasc : List.Chain' (fun a b => a.seat_number < b.seat_number) l)
    (h1 : 0 < c) (h2 : c < l.length) :
    select_centered_seats l (c : Int) pref =
      (l.drop (bestScan (l.map (fun s => s.seat_number)) c pref).1).take c := by
  have hnums : sortedNums l = l.map (fun s => s.seat_number) := sortedNums_eq_of_chain hasc
  have hnodup : (l.map (fun s => s.seat_number)).Nodup := nodup_map_num_of_asc hasc
  simp only [select_centered_seats]
  rw [if_neg ?hcond]
  case hcond =>
    rintro (hnil | hle)
    · subst hnil
      simp at h2
    · omega
  rw [hnums]
  rw [if_neg ?hcond2]
  case hcond2 =>
    rw [List.length_map]
    intro hle
    have : l.length ≤ c := by exact_mod_cast hle
    omega
  rw [Int.toNat_natCast]
  rw [← List.map_drop, ← List.map_take]
  exact filterMap_seatForNumber_of_mem hnodup
    (fun s hs => List.mem_of_mem_drop (List.mem_of_mem_take hs))

theorem select_centered_run_case {l : List Seat} {c : Nat} {pref : Int}
    (hasc : List.Chain' (fun a b => a.seat_number < b.seat_number) l)
    (h1 : 0 < c) (h2 : c < l.length)
    (hex : ∃ i, i + c ≤ l.length ∧
      consecutiveAt (l.map (fun s => s.seat_number)) i c = true) :
    (bestScan (l.map (fun s => s.seat_number)) c pref).1 + c ≤ l.length ∧
    consecutiveAt (l.map (fun s => s.seat_number))
      (bestScan (l.map (fun s => s.seat_number)) c pref).1 c = true ∧
    (select_centered_seats l (c : Int) pref).map (fun s => s.seat_number) =
      List.range' ((l.map (fun s => s.seat_number)).getD
        (bestScan (l.map (fun s => s.seat_number)) c pref).1 0) c ∧
    (∀ i, i + c ≤ l.length →
      consecutiveAt (l.map (fun s => s.seat_number)) i c = true →
      distOf (l.map (fun s => s.seat_number)) pref
          (bestScan (l.map (fun s => s.seat_number)) c pref).1 <
        distOf (l.map (fun s => s.seat_number)) pref i ∨
      (distOf (l.map (fun s => s.seat_number)) pref
          (bestScan (l.map (fun s => s.seat_number)) c pref).1 =
        distOf (l.map (fun s => s.seat_number)) pref i ∧
       (l.map (fun s => s.seat_number)).getD
          (bestScan (l.map (fun s => s.seat_number)) c pref).1 0 ≤
        (l.map (fun s => s.seat_number)).getD i 0)) := by
  set nums := l.map (fun s => s.seat_number) with hnumsdef
  have hlen : nums.length = l.length := List.length_map l _
  have hinv := scanFold_inv nums c pref (nums.length - c + 1)
  have hscan : bestScan nums c pref =
      (List.range (nums.length - c + 1)).foldl (scanStep nums c pref) (0, none) := rfl
  rcases hsnd : ((List.range (nums.length - c + 1)).foldl (scanStep nums c pref) (0, none)).2
    with _ | d
  · -- impossible: a consecutive window exists
    exfalso
    rcases hex with ⟨i, hile, hicons⟩
    have := (hinv.1 hsnd).2 i (by omega)
    rw [hicons] at this
    simp at this
  · have hsome := hinv.2 d hsnd
    set b := ((List.range (nums.length - c + 1)).foldl (scanStep nums c pref) (0, none)).1
      with hbdef
    have hbfst : (bestScan nums c pref).1 = b := by rw [hscan]
    have hble : b + c ≤ l.length := by
      have := hsome.1
      omega
    have hbcons : consecutiveAt nums b c = true := hsome.2.1
    refine ⟨by rw [hbfst]; exact hble, by rw [hbfst]; exact hbcons, ?_, ?_⟩
    · rw [select_centered_eq_slice hasc h1 h2, hbfst]
      rw [List.map_take, List.map_drop]
      exact run_eq_range' (by rw [← hnumsdef]; omega) hbcons
    · intro i hile hicons
      rw [hbfst]
      have hik : i < nums.length - c + 1 := by omega
      have hdle : d ≤ distOf nums pref i := hsome.2.2.2.1 i hik hicons
      have hdb : d = distOf nums pref b := hsome.2.2.1
      rcases lt_or_eq_of_le hdle with hlt | heq
      · left
        rw [← hdb]
        exact hlt
      · right
        constructor
        · rw [← hdb, heq]
        · have hbi : b ≤ i := by
            by_contra hcon
            push_neg at hcon
            have := hsome.2.2.2.2 i hcon hicons
            omega
          exact sorted_getD_mono (chain_map_num_of_asc hasc) hbi (by rw [← hnumsdef]; omega)

theorem select_centered_norun_case {l : List Seat} {c : Nat} {pref : Int}
    (hasc : List.Chain' (fun a b => a.seat_number < b.seat_number) l)
    (h1 : 0 < c) (h2 : c < l.length)
    (hnone : ∀ i, i + c ≤ l.length →
      consecutiveAt (l.map (fun s => s.seat_number)) i c = false) :
    select_centered_seats l (c : Int) pref = l.take c := by
  set nums := l.map (fun s => s.seat_number) with hnumsdef
  have hlen : nums.length = l.length := List.length_map l _
  have hinv := scanFold_inv nums c pref (nums.length - c + 1)
  have hscan : bestScan nums c pref =
      (List.range (nums.length - c + 1)).foldl (scanStep nums c pref) (0, none) := rfl
  rw [select_centered_eq_slice hasc h1 h2]
  rcases hsnd : ((List.range (nums.length - c + 1)).foldl (scanStep nums c pref) (0, none)).2
    with _ | d
  · have hfst := (hinv.1 hsnd).1
    have : (bestScan nums c pref).1 = 0 := by rw [hscan]; exact hfst
    rw [hnumsdef] at this  -- align set variable
    rw [this, List.drop_zero]
  · exfalso
    have hsome := hinv.2 d hsnd
    have hb := hsome.1
    have := hnone ((List.range (nums.length - c + 1)).foldl (scanStep nums c pref) (0, none)).1
      (by omega)
    rw [hsome.2.1] at this
    simp at this

/-! ### Character class characterizations -/

theorem isUpper_char_iff (c : Char) : c.isUpper = true ↔ 'A' ≤ c ∧ c ≤ 'Z' := by
  unfold Char.isUpper
  simp only [Bool.and_eq_true, decide_eq_true_eq]
  constructor
  · rintro ⟨h1, h2⟩
    exact ⟨Char.le_def.mpr (by exact_mod_cast h1), Char.le_def.mpr (by exact_mod_cast h2)⟩
  · rintro ⟨h1, h2⟩
    exact ⟨by exact_mod_cast Char.le_def.mp h1, by exact_mod_cast Char.le_def.mp h2⟩

theorem isDigit_char_iff (c : Char) : c.isDigit = true ↔ '0' ≤ c ∧ c ≤ '9' := by
  unfold Char.isDigit
  simp only [Bool.and_eq_true, decide_eq_true_eq]
  constructor
  · rintro ⟨h1, h2⟩
    exact ⟨Char.le_def.mpr (by exact_mod_cast h1), Char.le_def.mpr (by exact_mod_cast h2)⟩
  · rintro ⟨h1, h2⟩
    exact ⟨by exact_mod_cast Char.le_def.mp h1, by exact_mod_cast Char.le_def.mp h2⟩

/-- Specification wording of the Position Parser contract (spec §4.1): the
trimmed, upper-cased input consists of one leading letter A-Z followed by
one or more digits. Stated from the spec text, for comparison with the
embedded parse_seat_position. -/
def positionShapeSpec (s : String) : Prop :=
  ∃ c rest, pyUpper (pyStrip s.data) = c :: rest ∧
    ('A' ≤ c ∧ c ≤ 'Z') ∧ rest ≠ [] ∧ ∀ d ∈ rest, '0' ≤ d ∧ d ≤ '9'

/-- Example row with available seat numbers {1,3,5,7,9} (spec degraded-mode
example: alternating free seats). -/
def exAltRow : List Seat :=
  [⟨1, 1, 'A', 1, false⟩, ⟨2, 1, 'A', 3, false⟩, ⟨3, 1, 'A', 5, false⟩,
   ⟨4, 1, 'A', 7, false⟩, ⟨5, 1, 'A', 9, false⟩]

/-- C1: for every ascending availability list, preferred start and count with
0 < count < number of available seats, the Centered-Block Selector returns the
contiguous run of count consecutive seat numbers whose start is nearest to
preferred_start (ties to the lowest start), and when no such run exists it
returns the first count available seats ascending; in particular free seats
{1,3,5,7,9} with count 2 yield {1,3}. -/
theorem claim_C1 :
    (∀ (available : List Seat) (c : Nat) (pref : Int),
      List.Chain' (fun a b => a.seat_number < b.seat_number) available →
      0 < c → c < available.length →
      ((∃ i, i + c ≤ available.length ∧
          consecutiveAt (available.map (fun s => s.seat_number)) i c = true) →
        ∃ b, b + c ≤ available.length ∧
          consecutiveAt (available.map (fun s => s.seat_number)) b c = true ∧
          (select_centered_seats available (c : Int) pref).map (fun s => s.seat_number) =
            List.range' ((available.map (fun s => s.seat_number)).getD b 0) c ∧
          ∀ i, i + c ≤ available.length →
            consecutiveAt (available.map (fun s => s.seat_number)) i c = true →
            distOf (available.map (fun s => s.seat_number)) pref b <
              distOf (available.map (fun s => s.seat_number)) pref i ∨
            (distOf (available.map (fun s => s.seat_number)) pref b =
              distOf (available.map (fun s => s.seat_number)) pref i ∧
             (available.map (fun s => s.seat_number)).getD b 0 ≤
               (available.map (fun s => s.seat_number)).getD i 0)) ∧
      ((∀ i, i + c ≤ available.length →
          consecutiveAt (available.map (fun s => s.seat_number)) i c = false) →
        select_centered_seats available (c : Int) pref = available.take c)) ∧
    (∀ pref : Int,
      (select_centered_seats exAltRow (2 : Int) pref).map (fun s => s.seat_number) = [1, 3]) := by
  constructor
  · intro available c pref hasc h1 h2
    constructor
    · intro hex
      refine ⟨(bestScan (available.map (fun s => s.seat_number)) c pref).1, ?_⟩
      exact select_centered_run_case hasc h1 h2 hex
    · intro hnone
      exact select_centered_norun_case hasc h1 h2 hnone
  · intro pref
    have hnone : ∀ i, i + 2 ≤ exAltRow.length →
        consecutiveAt (exAltRow.map (fun s => s.seat_number)) i 2 = false := by
      intro i hi
      have hi4 : i < 4 := by
        have hlen : exAltRow.length = 5 := rfl
        omega
      interval_cases i <;> decide
    have hres := @select_centered_norun_case exAltRow 2 pref
      (by simp [exAltRow, List.chain'_cons]) (by decide) (by decide) hnone
    push_cast at hres
    rw [hres]
    decide

/-- Witness for C1: applying the no-run branch to the alternating row
{1,3,5,7,9} with count 2 and preferred start 5 yields the first two seats. -/
theorem claim_C1_witness :
    select_centered_seats exAltRow ((2 : Nat) : Int) 5 = exAltRow.take 2 :=
  (claim_C1.1 exAltRow 2 5 (by simp [exAltRow, List.chain'_cons]) (by decide) (by decide)).2
    (by
      intro i hi
      have hi4 : i < 4 := by
        have hlen : exAltRow.length = 5 := rfl
        omega
      interval_cases i <;> decide)

/-- C4: the preferred start column for centering equals
max(1, floor((seats_per_row + 1)/2 - count/2 + 1/2)) in exact fractional
arithmetic; for a 10-seat row, counts 2, 3, 4 give start columns 5, 4, 4. -/
theorem claim_C4 :
    (∀ (s c : Nat),
      get_middle_start_column (s : Int) (c : Int) =
        max 1 ⌊((s : ℚ) + 1) / 2 - (c : ℚ) / 2 + 1 / 2⌋) ∧
    get_middle_start_column 10 2 = 5 ∧
    get_middle_start_column 10 3 = 4 ∧
    get_middle_start_column 10 4 = 4 := by
  refine ⟨?_, by decide, by decide, by decide⟩
  intro s c
  have hfrac : ((s : ℚ) + 1) / 2 - (c : ℚ) / 2 + 1 / 2
      = (((s : Int) + 2 - (c : Int) : Int) : ℚ) / ((2 : Nat) : ℚ) := by
    push_cast
    ring
  rw [hfrac, Rat.floor_intCast_div_natCast]
  have h2 : ((2 : Nat) : Int) = 2 := by norm_num
  rw [h2]
  unfold get_middle_start_column
  split
  · rename_i hle
    have hdivle : ((s : Int) + 2 - (c : Int)) / 2 ≤ 1 := by omega
    rw [max_eq_left hdivle]
  · rfl

/-- C6: the Position Parser succeeds exactly when the trimmed, upper-cased
input is one leading letter A-Z followed by one or more digits, and fails
with InvalidFormat otherwise; "a1" parses to (A,1), "H10" to (H,10), and
"1A", "AA1", "", "A" all fail. -/
theorem claim_C6 :
    (∀ s : String, (parse_seat_position s).isSome = true ↔ positionShapeSpec s) ∧
    parse_seat_position "a1" = some ('A', 1) ∧
    parse_seat_position "H10" = some ('H', 10) ∧
    parse_seat_position "1A" = none ∧
    parse_seat_position "AA1" = none ∧
    parse_seat_position "" = none ∧
    parse_seat_position "A" = none := by
  refine ⟨?_, by decide, by decide, by decide, by decide, by decide, by decide⟩
  intro s
  unfold parse_seat_position
  split
  · rename_i hnil
    apply iff_of_false
    · simp
    · rintro ⟨c, rest, heq, _⟩
      rw [hnil] at heq
      simp [pyStrip, pyUpper] at heq
  · rename_i hnenil
    rcases hm : pyUpper (pyStrip s.data) with _ | ⟨c, rest⟩
    · apply iff_of_false
      · simp
      · rintro ⟨c', rest', heq, _⟩
        rw [hm] at heq
        exact List.noConfusion heq
    · change (if (c.isUpper && !rest.isEmpty && rest.all Char.isDigit) = true then
          some (c, digitsToNat rest) else none).isSome = true ↔ positionShapeSpec s
      by_cases hcond : (c.isUpper && !rest.isEmpty && rest.all Char.isDigit) = true
      · rw [if_pos hcond]
        apply iff_of_true
        · simp
        · have hc3 : (c.isUpper = true ∧ ¬rest = []) ∧ ∀ x ∈ rest, x.isDigit = true := by
            simpa using hcond
          refine ⟨c, rest, hm, (isUpper_char_iff c).mp hc3.1.1, hc3.1.2, ?_⟩
          intro d hd
          exact (isDigit_char_iff d).mp (hc3.2 d hd)
      · rw [if_neg hcond]
        apply iff_of_false
        · simp
        · rintro ⟨c2, rest2, heq, hup, hne, hdig⟩
          rw [hm] at heq
          injection heq with hc hrest
          subst hc
          subst hrest
          apply hcond
          simp only [Bool.and_eq_true]
          refine ⟨⟨(isUpper_char_iff c).mpr hup, ?_⟩, ?_⟩
          · cases rest with
            | nil => exact absurd rfl hne
            | cons a as => rfl
          · exact List.all_eq_true.mpr (fun d hd => (isDigit_char_iff d).mpr (hdig d hd))

/-! ### Row loops: membership and structure -/

theorem mem_avail {db : DB} {mid : Nat} {r : Char} {s : Seat}
    (h : s ∈ get_available_seats_in_row db mid r) :
    s ∈ db.seats ∧ s.movie_id = mid ∧ s.row_letter = r ∧ s.is_booked = false := by
  unfold get_available_seats_in_row at h
  rw [mem_sortBySeatNumber] at h
  rcases List.mem_filter.mp h with ⟨h1, h2⟩
  simp only [Bool.and_eq_true, beq_iff_eq, Bool.not_eq_true'] at h2
  exact ⟨h1, h2.1.1, h2.1.2, h2.2⟩

theorem defaultLoop_rows {db : DB} {m : Movie} {s : Seat} :
    ∀ {rows : List Char} {rem : Int}, s ∈ defaultLoop db m rows rem →
      ∃ r ∈ rows, s ∈ get_available_seats_in_row db m.id r := by
  intro rows
  induction rows with
  | nil => intro rem h; exact absurd h (List.not_mem_nil s)
  | cons r rs ih =>
    intro rem h
    simp only [defaultLoop] at h
    split at h
    · exact absurd h (List.not_mem_nil s)
    · split at h
      · rcases ih h with ⟨r2, hr2, hs2⟩
        exact ⟨r2, List.mem_cons_of_mem r hr2, hs2⟩
      · rcases List.mem_append.mp h with hsel | hrec
        · exact ⟨r, List.mem_cons_self r rs, select_centered_subset hsel⟩
        · rcases ih hrec with ⟨r2, hr2, hs2⟩
          exact ⟨r2, List.mem_cons_of_mem r hr2, hs2⟩

theorem positionalLoop_rows {db : DB} {m : Movie} {sc : Int} {s : Seat} :
    ∀ {rows : List Char} {rem : Int} {fl : Bool}, s ∈ positionalLoop db m sc rows rem fl →
      ∃ r ∈ rows, s ∈ get_available_seats_in_row db m.id r := by
  intro rows
  induction rows with
  | nil => intro rem fl h; exact absurd h (List.not_mem_nil s)
  | cons r rs ih =>
    intro rem fl h
    simp only [positionalLoop] at h
    split at h
    · exact absurd h (List.not_mem_nil s)
    · split at h
      · rcases ih h with ⟨r2, hr2, hs2⟩
        exact ⟨r2, List.mem_cons_of_mem r hr2, hs2⟩
      · split at h
        · rcases List.mem_append.mp h with hchunk | hrec
          · refine ⟨r, List.mem_cons_self r rs, ?_⟩
            have := List.mem_of_mem_take hchunk
            rw [mem_sortBySeatNumber] at this
            exact List.mem_of_mem_filter this
          · rcases ih hrec with ⟨r2, hr2, hs2⟩
            exact ⟨r2, List.mem_cons_of_mem r hr2, hs2⟩
        · rcases List.mem_append.mp h with hsel | hrec
          · exact ⟨r, List.mem_cons_self r rs, select_centered_subset hsel⟩
          · rcases ih hrec with ⟨r2, hr2, hs2⟩
            exact ⟨r2, List.mem_cons_of_mem r hr2, hs2⟩

theorem positionalLoop_nonpos {db : DB} {m : Movie} {sc : Int} {rows : List Char}
    {rem : Int} {fl : Bool} (h : rem ≤ 0) : positionalLoop db m sc rows rem fl = [] := by
  cases rows with
  | nil => rfl
  | cons r rs =>
    simp only [positionalLoop]
    rw [if_pos h]

theorem positionalLoop_false_eq_default (db : DB) (m : Movie) (sc : Int) :
    ∀ (rows : List Char) (rem : Int),
      positionalLoop db m sc rows rem false = defaultLoop db m rows rem := by
  intro rows
  induction rows with
  | nil => intro rem; rfl
  | cons r rs ih =>
    intro rem
    simp only [positionalLoop, defaultLoop]
    by_cases hrem : rem ≤ 0
    · rw [if_pos hrem, if_pos hrem]
    · rw [if_neg hrem, if_neg hrem]
      by_cases hav : get_available_seats_in_row db m.id r = []
      · rw [if_pos hav, if_pos hav, ih]
      · rw [if_neg hav, if_neg hav]
        simp only [Bool.false_eq_true, if_false]
        rw [ih]

/-- First-row chunk of the Positional Allocator (seat_allocation.py:279-285):
available seats of the row at column ≥ start_col, ascending, truncated to
min(remaining, number of such seats). -/
def rightwardTake (db : DB) (m : Movie) (sc : Int) (r : Char) (remaining : Int) : List Seat :=
  (sortBySeatNumber ((get_available_seats_in_row db m.id r).filter
      (fun s => sc ≤ (s.seat_number : Int)))).take
    (min remaining
      ((sortBySeatNumber ((get_available_seats_in_row db m.id r).filter
          (fun s => sc ≤ (s.seat_number : Int)))).length : Int)).toNat

/-- Count removed from remaining by the first-row chunk
(to_take at seat_allocation.py:284). -/
def rightwardCount (db : DB) (m : Movie) (sc : Int) (r : Char) (remaining : Int) : Int :=
  min remaining
    ((sortBySeatNumber ((get_available_seats_in_row db m.id r).filter
        (fun s => sc ≤ (s.seat_number : Int)))).length : Int)

theorem positionalLoop_first {db : DB} {m : Movie} {sc : Int} {r : Char}
    {post : List Char} {rem : Int}
    (hav : get_available_seats_in_row db m.id r ≠ []) (hrem : 0 < rem) :
    positionalLoop db m sc (r :: post) rem true =
      rightwardTake db m sc r rem ++
        defaultLoop db m post (rem - rightwardCount db m sc r rem) := by
  simp only [positionalLoop]
  rw [if_neg (by omega), if_neg hav]
  split
  · rw [positionalLoop_false_eq_default]
    rfl
  · rename_i hfalse
    exact absurd trivial hfalse

theorem positionalLoop_skip {db : DB} {m : Movie} {sc : Int} :
    ∀ (pre : List Char), (∀ x ∈ pre, get_available_seats_in_row db m.id x = []) →
      ∀ (rows : List Char) (rem : Int),
        positionalLoop db m sc (pre ++ rows) rem true = positionalLoop db m sc rows rem true := by
  intro pre
  induction pre with
  | nil => intro _ rows rem; rfl
  | cons p ps ih =>
    intro hpre rows rem
    rw [List.cons_append]
    by_cases hrem : rem ≤ 0
    · rw [positionalLoop_nonpos hrem, positionalLoop_nonpos hrem]
    · simp only [positionalLoop]
      rw [if_neg hrem, if_pos (hpre p (List.mem_cons_self p ps))]
      exact ih (fun x hx => hpre x (List.mem_cons_of_mem p hx)) rows rem

theorem indexOfRow_drop {c : Char} :
    ∀ {l : List Char} {i : Nat}, indexOfRow c l = some i →
      ∃ post, l.drop i = c :: post := by
  intro l
  induction l with
  | nil => intro i h; exact absurd h (by simp [indexOfRow])
  | cons d ds ih =>
    intro i h
    simp only [indexOfRow] at h
    split at h
    · rename_i heq
      subst heq
      simp only [Option.some.injEq] at h
      subst h
      exact ⟨ds, rfl⟩
    · rcases Option.map_eq_some'.mp h with ⟨j, hj, hij⟩
      subst hij
      rcases ih hj with ⟨post, hpost⟩
      exact ⟨post, by simpa using hpost⟩

theorem indexOfRow_isSome {c : Char} :
    ∀ {l : List Char}, c ∈ l → (indexOfRow c l).isSome = true := by
  intro l
  induction l with
  | nil => intro h; exact absurd h (List.not_mem_nil c)
  | cons d ds ih =>
    intro h
    simp only [indexOfRow]
    split
    · rfl
    · rename_i hne
      rcases List.mem_cons.mp h with heq | hmem
      · exact absurd heq hne
      · rcases Option.isSome_iff_exists.mp (ih hmem) with ⟨j, hj⟩
        rw [hj]
        rfl

theorem ascii_uppercase_nodup : ascii_uppercase.Nodup := by decide

/-- Venue with 2 rows of 5 seats where the whole starting row A is already
booked and row B is free: positional allocation from A1 reaches row B with
the is_first_row flag still set. -/
def dbC2 : DB :=
  { movies := [⟨1, 2, 5⟩],
    seats := [⟨1, 1, 'A', 1, true⟩, ⟨2, 1, 'A', 2, true⟩, ⟨3, 1, 'A', 3, true⟩,
              ⟨4, 1, 'A', 4, true⟩, ⟨5, 1, 'A', 5, true⟩,
              ⟨6, 1, 'B', 1, false⟩, ⟨7, 1, 'B', 2, false⟩, ⟨8, 1, 'B', 3, false⟩,
              ⟨9, 1, 'B', 4, false⟩, ⟨10, 1, 'B', 5, false⟩],
    booking_seats := [] }

/-- Counterexample to C2 as stated: in dbC2, allocating 2 seats from
position A1, row B comes after the starting row A, yet the seats taken from
row B ({B1,B2}, the rightward-filtered prefix) are not what the Default
Allocator's per-row step would take there ({B2,B3}, the centered block for
min(remaining, available) = 2 with recomputed preferred start). -/
theorem claim_C2_counterexample :
    (get_seats_from_position dbC2 1 'A' 1 2).filter (fun s => s.row_letter == 'B') ≠
      select_centered_seats (get_available_seats_in_row dbC2 1 'B')
        (min 2 ((get_available_seats_in_row dbC2 1 'B').length : Int))
        (get_middle_start_column 5
          (min 2 ((get_available_seats_in_row dbC2 1 'B').length : Int))) := by
  decide

/-- C2 amended: the rightward-only filter applies to the first row at or
after the starting row that has any available seats (rows before it are
skipped with the flag still set); every row processed after that one is
taken exactly as the Default Allocator's row walk takes it. -/
theorem claim_C2 :
    (∀ (db : DB) (m : Movie) (sc : Int) (rows : List Char) (rem : Int),
      positionalLoop db m sc rows rem false = defaultLoop db m rows rem) ∧
    (∀ (db : DB) (m : Movie) (sc : Int) (pre : List Char) (r : Char) (post : List Char)
        (rem : Int),
      (∀ x ∈ pre, get_available_seats_in_row db m.id x = []) →
      get_available_seats_in_row db m.id r ≠ [] → 0 < rem →
      positionalLoop db m sc (pre ++ r :: post) rem true =
        rightwardTake db m sc r rem ++
          defaultLoop db m post (rem - rightwardCount db m sc r rem)) ∧
    (∀ (db : DB) (mid : Nat) (start_row : Char) (sc n : Int) (m : Movie) (i : Nat),
      findMovie db mid = some m →
      indexOfRow start_row (ascii_uppercase.take m.rows) = some i →
      get_seats_from_position db mid start_row sc n =
        positionalLoop db m sc ((ascii_uppercase.take m.rows).drop i) n true) := by
  refine ⟨positionalLoop_false_eq_default, ?_, ?_⟩
  · intro db m sc pre r post rem hpre hav hrem
    rw [positionalLoop_skip pre hpre, positionalLoop_first hav hrem]
  · intro db mid start_row sc n m i hfind hidx
    unfold get_seats_from_position
    rw [hfind]
    show (match indexOfRow start_row (List.take m.rows ascii_uppercase) with
      | none => ([] : List Seat)
      | some start_idx =>
          positionalLoop db m sc (List.drop start_idx (List.take m.rows ascii_uppercase))
            n true) =
      positionalLoop db m sc ((ascii_uppercase.take m.rows).drop i) n true
    rw [hidx]

/-- Witness for C2: the amended decomposition applied to dbC2 with start
column 1 and 2 tickets, skipping fully booked row A and filtering row B. -/
theorem claim_C2_witness :
    positionalLoop dbC2 ⟨1, 2, 5⟩ 1 (['A'] ++ 'B' :: []) 2 true =
      rightwardTake dbC2 ⟨1, 2, 5⟩ 1 'B' 2 ++
        defaultLoop dbC2 ⟨1, 2, 5⟩ [] (2 - rightwardCount dbC2 ⟨1, 2, 5⟩ 1 'B' 2) :=
  claim_C2.2.1 dbC2 ⟨1, 2, 5⟩ 1 ['A'] 'B' [] 2 (by decide) (by decide) (by decide)

/-- C7: positional allocation never returns a starting-row seat left of the
requested start column, and the starting-row seats it returns are exactly the
available seats at columns ≥ the start column, ascending, up to remaining. -/
theorem claim_C7 :
    (∀ (db : DB) (mid : Nat) (start_row : Char) (sc n : Int) (s : Seat),
      s ∈ get_seats_from_position db mid start_row sc n →
      s.row_letter = start_row → sc ≤ (s.seat_number : Int)) ∧
    (∀ (db : DB) (mid : Nat) (start_row : Char) (sc n : Int) (m : Movie),
      findMovie db mid = some m →
      start_row ∈ ascii_uppercase.take m.rows →
      (get_seats_from_position db mid start_row sc n).filter
          (fun s => s.row_letter == start_row) =
        rightwardTake db m sc start_row n) := by
  constructor
  · intro db mid start_row sc n s hs hrow
    unfold get_seats_from_position at hs
    split at hs
    · exact absurd hs (List.not_mem_nil s)
    · rename_i m hfind
      have hs2 : s ∈ (match indexOfRow start_row (List.take m.rows ascii_uppercase) with
        | none => ([] : List Seat)
        | some start_idx =>
            positionalLoop db m sc (List.drop start_idx (List.take m.rows ascii_uppercase))
              n true) := hs
      clear hs
      split at hs2
      · exact absurd hs2 (List.not_mem_nil s)
      · rename_i i hidx
        rename' hs2 => hs
        rcases indexOfRow_drop hidx with ⟨post, hdrop⟩
        rw [hdrop] at hs
        have htakend : ((ascii_uppercase.take m.rows).drop i).Nodup :=
          (List.drop_sublist _ _).nodup
            ((List.take_sublist _ _).nodup ascii_uppercase_nodup)
        rw [hdrop] at htakend
        have hpost : start_row ∉ post := (List.nodup_cons.mp htakend).1
        by_cases hav : get_available_seats_in_row db m.id start_row = []
        · rw [show start_row :: post = ['A'].set 0 start_row ++ post from by simp] at hs
          rw [positionalLoop_skip _ (by
            intro x hx
            simp at hx
            rw [hx]
            exact hav)] at hs
          rcases positionalLoop_rows hs with ⟨r, hr, hsr⟩
          have := (mem_avail hsr).2.2.1
          rw [hrow] at this
          exact absurd (this ▸ hr) hpost
        · by_cases hrem : n ≤ 0
          · rw [positionalLoop_nonpos hrem] at hs
            exact absurd hs (List.not_mem_nil s)
          · rw [positionalLoop_first hav (by omega)] at hs
            rcases List.mem_append.mp hs with hchunk | hrec
            · unfold rightwardTake at hchunk
              have := List.mem_of_mem_take hchunk
              rw [mem_sortBySeatNumber] at this
              have := List.of_mem_filter this
              simpa using this
            · rcases defaultLoop_rows hrec with ⟨r, hr, hsr⟩
              have := (mem_avail hsr).2.2.1
              rw [hrow] at this
              exact absurd (this ▸ hr) hpost
  · intro db mid start_row sc n m hfind hmem
    unfold get_seats_from_position
    rw [hfind]
    show (match indexOfRow start_row (List.take m.rows ascii_uppercase) with
      | none => ([] : List Seat)
      | some start_idx =>
          positionalLoop db m sc (List.drop start_idx (List.take m.rows ascii_uppercase))
            n true).filter (fun s => s.row_letter == start_row) =
      rightwardTake db m sc start_row n
    rcases Option.isSome_iff_exists.mp (indexOfRow_isSome hmem) with ⟨i, hidx⟩
    rw [hidx]
    show (positionalLoop db m sc (List.drop i (List.take m.rows ascii_uppercase)) n
        true).filter (fun s => s.row_letter == start_row) =
      rightwardTake db m sc start_row n
    rcases indexOfRow_drop hidx with ⟨post, hdrop⟩
    rw [hdrop]
    have htakend : ((ascii_uppercase.take m.rows).drop i).Nodup :=
      (List.drop_sublist _ _).nodup
        ((List.take_sublist _ _).nodup ascii_uppercase_nodup)
    rw [hdrop] at htakend
    have hpost : start_row ∉ post := (List.nodup_cons.mp htakend).1
    by_cases hav : get_available_seats_in_row db m.id start_row = []
    · rw [show start_row :: post = ['A'].set 0 start_row ++ post from by simp]
      rw [positionalLoop_skip _ (by
        intro x hx
        simp at hx
        rw [hx]
        exact hav)]
      rw [List.filter_eq_nil_iff.mpr ?hnil]
      case hnil =>
        intro s hsmem hp
        rcases positionalLoop_rows hsmem with ⟨r, hr, hsr⟩
        have hrowr := (mem_avail hsr).2.2.1
        have : s.row_letter = start_row := by simpa using hp
        rw [this] at hrowr
        exact hpost (hrowr ▸ hr)
      unfold rightwardTake
      rw [hav]
      simp [sortBySeatNumber]
    · by_cases hrem : n ≤ 0
      · rw [positionalLoop_nonpos hrem]
        unfold rightwardTake
        rw [Int.toNat_of_nonpos (le_trans (min_le_left _ _) hrem)]
        simp
      · rw [positionalLoop_first hav (by omega), List.filter_append]
        have h1 : (rightwardTake db m sc start_row n).filter
            (fun s => s.row_letter == start_row) = rightwardTake db m sc start_row n := by
          rw [List.filter_eq_self]
          intro s hsmem
          unfold rightwardTake at hsmem
          have := List.mem_of_mem_take hsmem
          rw [mem_sortBySeatNumber] at this
          have := (mem_avail (List.mem_of_mem_filter this)).2.2.1
          simpa using this
        have h2 : (defaultLoop db m post (n - rightwardCount db m sc start_row n)).filter
            (fun s => s.row_letter == start_row) = [] := by
          rw [List.filter_eq_nil_iff]
          intro s hsmem hp
          rcases defaultLoop_rows hsmem with ⟨r, hr, hsr⟩
          have hrowr := (mem_avail hsr).2.2.1
          have : s.row_letter = start_row := by simpa using hp
          rw [this] at hrowr
          exact hpost (hrowr ▸ hr)
        rw [h1, h2, List.append_nil]

/-- Witness for C7: in a fresh 2-row venue, the row-A seats returned when
allocating from A2 are exactly the available row-A seats at columns ≥ 2. -/
theorem claim_C7_witness :
    (get_seats_from_position (mkFreshDB 2 5) 1 'A' 2 1).filter
        (fun s => s.row_letter == 'A') =
      rightwardTake (mkFreshDB 2 5) ⟨1, 2, 5⟩ 2 'A' 1 :=
  claim_C7.2 (mkFreshDB 2 5) 1 'A' 2 1 ⟨1, 2, 5⟩ (by decide) (by decide)

/-! ### Orchestrator -/

theorem defaultLoop_nonpos {db : DB} {m : Movie} {rows : List Char} {rem : Int}
    (h : rem ≤ 0) : defaultLoop db m rows rem = [] := by
  cases rows with
  | nil => rfl
  | cons r rs =>
    simp only [defaultLoop]
    rw [if_pos h]

/-- Venue with a single unbooked seat A1. -/
def dbTiny : DB :=
  { movies := [⟨1, 1, 1⟩], seats := [⟨1, 1, 'A', 1, false⟩], booking_seats := [] }

/-- Movie record present but no seat records at all. -/
def dbNoSeats : DB :=
  { movies := [⟨1, 1, 1⟩], seats := [], booking_seats := [] }

/-- Counterexample to C3 as stated: with start_position given as the empty
string, which does not parse, allocate_seats does not fail with
InvalidFormat — Python's `if start_position:` treats the empty string like
an absent position, so the default allocator runs and succeeds. -/
theorem claim_C3_counterexample :
    parse_seat_position "" = none ∧
    (allocate_seats dbTiny 1 1 (some "")).error ≠ some (AllocError.InvalidFormat "") ∧
    (allocate_seats dbTiny 1 1 (some "")).success = true := by
  decide

/-- C3 amended: allocate_seats returns the first applicable failure as a pure
result value, checked in order NotFound, InsufficientCapacity (reporting the
actual available count), then — only when a NON-EMPTY start_position is given
(an empty string is treated like an absent position and takes the default
path) — InvalidFormat, RowOutOfRange, ColumnOutOfRange; the invoked
allocator's output then yields FragmentationFailure when shorter than
num_tickets, and otherwise success with the seats exactly as produced. -/
theorem claim_C3 :
    (∀ (db : DB) (mid : Nat) (n : Int) (sp : Option String),
      findMovie db mid = none →
      allocate_seats db mid n sp = ⟨false, [], some AllocError.NotFound⟩) ∧
    (∀ (db : DB) (mid : Nat) (n : Int) (sp : Option String) (m : Movie),
      findMovie db mid = some m →
      (total_available_count db mid : Int) < n →
      allocate_seats db mid n sp =
        ⟨false, [], some (AllocError.InsufficientCapacity (total_available_count db mid))⟩) ∧
    (∀ (db : DB) (mid : Nat) (n : Int) (p : String) (m : Movie),
      findMovie db mid = some m →
      ¬(total_available_count db mid : Int) < n →
      p.data ≠ [] →
      parse_seat_position p = none →
      allocate_seats db mid n (some p) =
        ⟨false, [], some (AllocError.InvalidFormat p)⟩) ∧
    (∀ (db : DB) (mid : Nat) (n : Int) (p : String) (m : Movie) (r : Char) (c : Nat),
      findMovie db mid = some m →
      ¬(total_available_count db mid : Int) < n →
      p.data ≠ [] →
      parse_seat_position p = some (r, c) →
      r ∉ ascii_uppercase.take m.rows →
      allocate_seats db mid n (some p) =
        ⟨false, [], some (AllocError.RowOutOfRange r)⟩) ∧
    (∀ (db : DB) (mid : Nat) (n : Int) (p : String) (m : Movie) (r : Char) (c : Nat),
      findMovie db mid = some m →
      ¬(total_available_count db mid : Int) < n →
      p.data ≠ [] →
      parse_seat_position p = some (r, c) →
      r ∈ ascii_uppercase.take m.rows →
      (c < 1 ∨ m.seats_per_row < c) →
      allocate_seats db mid n (some p) =
        ⟨false, [], some (AllocError.ColumnOutOfRange c)⟩) ∧
    (∀ (db : DB) (mid : Nat) (n : Int) (p : String) (m : Movie) (r : Char) (c : Nat),
      findMovie db mid = some m →
      ¬(total_available_count db mid : Int) < n →
      p.data ≠ [] →
      parse_seat_position p = some (r, c) →
      r ∈ ascii_uppercase.take m.rows →
      ¬(c < 1 ∨ m.seats_per_row < c) →
      allocate_seats db mid n (some p) =
        finishAllocation (get_seats_from_position db mid r (c : Int) n) n) ∧
    (∀ (db : DB) (mid : Nat) (n : Int) (m : Movie),
      findMovie db mid = some m →
      ¬(total_available_count db mid : Int) < n →
      allocate_seats db mid n none =
        finishAllocation (get_default_seats db mid n) n) ∧
    (∀ (db : DB) (mid : Nat) (n : Int) (p : String) (m : Movie),
      findMovie db mid = some m →
      ¬(total_available_count db mid : Int) < n →
      p.data = [] →
      allocate_seats db mid n (some p) =
        finishAllocation (get_default_seats db mid n) n) ∧
    (∀ (seats : List Seat) (n : Int),
      ((seats.length : Int) < n →
        finishAllocation seats n =
          ⟨false, [], some (AllocError.FragmentationFailure n)⟩) ∧
      (¬(seats.length : Int) < n → finishAllocation seats n = ⟨true, seats, none⟩)) := by
  refine ⟨?_, ?_, ?_, ?_, ?_, ?_, ?_, ?_, ?_⟩
  · intro db mid n sp hfind
    simp only [allocate_seats, hfind]
  · intro db mid n sp m hfind hlt
    simp only [allocate_seats, hfind]
    rw [if_pos hlt]
  · intro db mid n p m hfind hnlt hpne hparse
    simp only [allocate_seats, hfind]
    rw [if_neg hnlt, if_neg hpne, hparse]
  · intro db mid n p m r c hfind hnlt hpne hparse hrout
    simp only [allocate_seats, hfind]
    rw [if_neg hnlt, if_neg hpne, hparse]
    show (if r ∉ ascii_uppercase.take m.rows then _ else _) = _
    rw [if_pos hrout]
  · intro db mid n p m r c hfind hnlt hpne hparse hrin hcout
    simp only [allocate_seats, hfind]
    rw [if_neg hnlt, if_neg hpne, hparse]
    show (if r ∉ ascii_uppercase.take m.rows then _ else _) = _
    rw [if_neg (by simpa using hrin), if_pos hcout]
  · intro db mid n p m r c hfind hnlt hpne hparse hrin hcin
    simp only [allocate_seats, hfind]
    rw [if_neg hnlt, if_neg hpne, hparse]
    show (if r ∉ ascii_uppercase.take m.rows then _ else _) = _
    rw [if_neg (by simpa using hrin), if_neg hcin]
  · intro db mid n m hfind hnlt
    simp only [allocate_seats, hfind]
    rw [if_neg hnlt]
  · intro db mid n p m hfind hnlt hpe
    simp only [allocate_seats, hfind]
    rw [if_neg hnlt, if_pos hpe]
  · intro seats n
    constructor
    · intro hlt
      unfold finishAllocation
      rw [if_pos hlt]
    · intro hnlt
      unfold finishAllocation
      rw [if_neg hnlt]

/-- Witness for C3: the NotFound case on a store with no movie record 7,
and the success case on the one-seat venue. -/
theorem claim_C3_witness :
    allocate_seats dbNoSeats 7 1 none = ⟨false, [], some AllocError.NotFound⟩ ∧
    allocate_seats dbTiny 1 1 none =
      finishAllocation (get_default_seats dbTiny 1 1) 1 :=
  ⟨claim_C3.1 dbNoSeats 7 1 none (by decide),
   claim_C3.2.2.2.2.2.2.1 dbTiny 1 1 ⟨1, 1, 1⟩ (by decide) (by decide)⟩

/-- C10: for every existing venue, allocate_seats with num_tickets ≤ 0 and no
start position succeeds with an empty seat list and no error; the
num_tickets > 0 precondition is not checked and no InsufficientCapacity is
reported even with zero available seats. -/
theorem claim_C10 :
    ∀ (db : DB) (mid : Nat) (n : Int) (m : Movie),
      findMovie db mid = some m → n ≤ 0 →
      allocate_seats db mid n none = ⟨true, [], none⟩ := by
  intro db mid n m hfind hn
  simp only [allocate_seats, hfind]
  rw [if_neg (by
    have : (0 : Int) ≤ (total_available_count db mid : Int) := Int.natCast_nonneg _
    omega)]
  have hdef : get_default_seats db mid n = [] := by
    unfold get_default_seats
    rw [hfind]
    exact defaultLoop_nonpos hn
  rw [hdef]
  unfold finishAllocation
  rw [if_neg (by simpa using hn)]

/-- Witness for C10: a venue with a movie record but zero seat records still
returns success with an empty list for zero requested tickets. -/
theorem claim_C10_witness :
    allocate_seats dbNoSeats 1 0 none = ⟨true, [], none⟩ :=
  claim_C10 dbNoSeats 1 0 ⟨1, 1, 1⟩ (by decide) (by decide)

/-! ### Booking-detail seating map -/

/-- The seat record the map builder finds for a slot (the next(...) lookup
at main.py:494): first seat of the venue with the given row and number. -/
def firstSeatAt (db : DB) (m : Movie) (r : Char) (n : Nat) : Option Seat :=
  (db.seats.filter (fun s => s.movie_id == m.id)).find?
    (fun s => s.row_letter == r && s.seat_number == n)

/-- A seat id belongs to a booking: some booking-seat record links them. -/
def bookedBy (db : DB) (b sid : Nat) : Prop :=
  ∃ bs ∈ db.booking_seats, bs.booking_id = b ∧ bs.seat_id = sid

theorem contains_nat_iff {l : List Nat} {a : Nat} : l.contains a = true ↔ a ∈ l := by
  simp [List.contains]

/-- Seat ids of the viewed booking (viewed_booking_seat_ids at main.py:479). -/
def viewedIds (db : DB) (bid : Nat) : List Nat :=
  (db.booking_seats.filter (fun bs => bs.booking_id == bid)).map (fun bs => bs.seat_id)

/-- Seat ids of other bookings of the venue (other_booked_seat_ids at
main.py:482-485: booking-seat records joined against the venue's seats,
minus the viewed booking's ids). -/
def otherIds (db : DB) (m : Movie) (bid : Nat) : List Nat :=
  ((db.booking_seats.filter (fun bs => db.seats.any
      (fun s => s.id == bs.seat_id && s.movie_id == m.id))).map
    (fun bs => bs.seat_id)).filter (fun i => !(viewedIds db bid).contains i)

theorem viewed_contains_iff {db : DB} {bid sid : Nat} :
    (viewedIds db bid).contains sid = true ↔ bookedBy db bid sid := by
  unfold viewedIds
  rw [contains_nat_iff]
  simp only [List.mem_map, List.mem_filter, beq_iff_eq, bookedBy]
  constructor
  · rintro ⟨bs, ⟨hb, hbid⟩, hsid⟩
    exact ⟨bs, hb, hbid, hsid⟩
  · rintro ⟨bs, hb, hbid, hsid⟩
    exact ⟨bs, ⟨hb, hbid⟩, hsid⟩

theorem other_contains_iff {db : DB} {m : Movie} {bid sid : Nat}
    (hseat : ∃ s ∈ db.seats, s.id = sid ∧ s.movie_id = m.id) :
    (otherIds db m bid).contains sid = true ↔
      (¬bookedBy db bid sid ∧ ∃ bs ∈ db.booking_seats, bs.seat_id = sid) := by
  unfold otherIds
  rw [contains_nat_iff, List.mem_filter]
  constructor
  · rintro ⟨hmem, hnv⟩
    simp only [Bool.not_eq_true'] at hnv
    refine ⟨?_, ?_⟩
    · intro hb
      rw [viewed_contains_iff.mpr hb] at hnv
      exact absurd hnv (by simp)
    · rcases List.mem_map.mp hmem with ⟨bs, hbs, hsid⟩
      exact ⟨bs, (List.mem_filter.mp hbs).1, hsid⟩
  · rintro ⟨hnb, bs, hbs, hsid⟩
    constructor
    · apply List.mem_map.mpr
      refine ⟨bs, List.mem_filter.mpr ⟨hbs, ?_⟩, hsid⟩
      apply List.any_eq_true.mpr
      rcases hseat with ⟨s, hsmem, hsid2, hsm⟩
      exact ⟨s, hsmem, by simp [hsid, hsid2, hsm]⟩
    · simp only [Bool.not_eq_true']
      rcases hcv : (viewedIds db bid).contains sid with _ | _
      · rfl
      · exact absurd (viewed_contains_iff.mp hcv) hnb

/-- Slot builder of the booking-detail map (main.py:493-507), definitionally
equal to the body of get_booking_seating_map for one seat slot. -/
def bkmSlot (db : DB) (m : Movie) (bid : Nat) (r : Char) (k : Nat) : Nat × Char :=
  match (db.seats.filter (fun s => s.movie_id == m.id)).find?
      (fun s => s.row_letter == r && s.seat_number == k + 1) with
  | some seat =>
    (k + 1,
      if (viewedIds db bid).contains seat.id then 'o'
      else if (otherIds db m bid).contains seat.id then '#'
      else '.')
  | none => (k + 1, '.')

/-- Row builder of the booking-detail map (main.py:492-511). -/
def bkmRow (db : DB) (m : Movie) (bid : Nat) (r : Char) : Char × List (Nat × Char) :=
  (r, (List.range m.seats_per_row).map (bkmSlot db m bid r))

theorem get_booking_seating_map_eq (db : DB) (m : Movie) (bid : Nat) :
    get_booking_seating_map db m bid =
      (sortDescDedup ((db.seats.filter (fun s => s.movie_id == m.id)).map
          (fun s => s.row_letter))).map (bkmRow db m bid) := rfl

/-- C8: the booking-detail seating map lists rows in strictly descending
row-letter order covering exactly the venue's seat rows, each row holds
slots 1..seats_per_row, and each slot is marked o exactly when its seat
belongs to the viewed booking, # exactly when it belongs to some other
booking, and defaults to . when no seat record exists for the slot. -/
theorem claim_C8 :
    ∀ (db : DB) (m : Movie) (bid : Nat),
      List.Chain' (fun p q => q.1 < p.1) (get_booking_seating_map db m bid) ∧
      (∀ c : Char, (∃ p ∈ get_booking_seating_map db m bid, p.1 = c) ↔
        ∃ s ∈ db.seats, s.movie_id = m.id ∧ s.row_letter = c) ∧
      (∀ p ∈ get_booking_seating_map db m bid,
        p.2.map Prod.fst = List.range' 1 m.seats_per_row) ∧
      (∀ p ∈ get_booking_seating_map db m bid, ∀ n mk, (n, mk) ∈ p.2 →
        (mk = 'o' ↔ ∃ s, firstSeatAt db m p.1 n = some s ∧ bookedBy db bid s.id) ∧
        (mk = '#' ↔ ∃ s, firstSeatAt db m p.1 n = some s ∧ ¬bookedBy db bid s.id ∧
          ∃ b2, b2 ≠ bid ∧ bookedBy db b2 s.id) ∧
        (firstSeatAt db m p.1 n = none → mk = '.')) := by
  intro db m bid
  rw [get_booking_seating_map_eq]
  refine ⟨?_, ?_, ?_, ?_⟩
  · rw [List.chain'_map]
    exact (sortDescDedup_chain _).imp (fun a b h => h)
  · intro c
    constructor
    · rintro ⟨p, hp, hpc⟩
      rcases List.mem_map.mp hp with ⟨r, hr, rfl⟩
      have hrc : r = c := hpc
      subst hrc
      have hmem := mem_sortDescDedup.mp hr
      rcases List.mem_map.mp hmem with ⟨s, hs, hsr⟩
      rcases List.mem_filter.mp hs with ⟨hsdb, hsm⟩
      exact ⟨s, hsdb, by simpa using hsm, hsr⟩
    · rintro ⟨s, hs, hsm, hsr⟩
      have hcrls : c ∈ sortDescDedup ((db.seats.filter (fun s => s.movie_id == m.id)).map
          (fun s => s.row_letter)) :=
        mem_sortDescDedup.mpr
          (List.mem_map.mpr ⟨s, List.mem_filter.mpr ⟨hs, by simp [hsm]⟩, hsr⟩)
      exact ⟨bkmRow db m bid c, List.mem_map.mpr ⟨c, hcrls, rfl⟩, rfl⟩
  · intro p hp
    rcases List.mem_map.mp hp with ⟨r, hr, rfl⟩
    show ((List.range m.seats_per_row).map (bkmSlot db m bid r)).map Prod.fst =
      List.range' 1 m.seats_per_row
    rw [List.map_map, List.range'_eq_map_range]
    apply List.map_congr_left
    intro k hk
    show (bkmSlot db m bid r k).1 = 1 + k
    unfold bkmSlot
    rcases hf : (db.seats.filter (fun s => s.movie_id == m.id)).find?
        (fun s => s.row_letter == r && s.seat_number == k + 1) with _ | seat
    · simp [hf]
      omega
    · simp [hf]
      omega
  · intro p hp n mk hq
    rcases List.mem_map.mp hp with ⟨r, hr, rfl⟩
    have hq2 : (n, mk) ∈ (List.range m.seats_per_row).map (bkmSlot db m bid r) := hq
    rcases List.mem_map.mp hq2 with ⟨k, hk, heq⟩
    show (mk = 'o' ↔ ∃ s, firstSeatAt db m r n = some s ∧ bookedBy db bid s.id) ∧
      (mk = '#' ↔ ∃ s, firstSeatAt db m r n = some s ∧ ¬bookedBy db bid s.id ∧
        ∃ b2, b2 ≠ bid ∧ bookedBy db b2 s.id) ∧
      (firstSeatAt db m r n = none → mk = '.')
    unfold bkmSlot at heq
    rcases hf : (db.seats.filter (fun s => s.movie_id == m.id)).find?
        (fun s => s.row_letter == r && s.seat_number == k + 1) with _ | seat
    · rw [hf] at heq
      injection heq with hn hmk
      subst hn
      subst hmk
      have hfs : firstSeatAt db m r (k + 1) = none := hf
      refine ⟨?_, ?_, fun _ => rfl⟩
      · apply iff_of_false (by decide)
        rintro ⟨s, hfs2, _⟩
        rw [hfs] at hfs2
        exact Option.noConfusion hfs2
      · apply iff_of_false (by decide)
        rintro ⟨s, hfs2, _⟩
        rw [hfs] at hfs2
        exact Option.noConfusion hfs2
    · rw [hf] at heq
      injection heq with hn hmk
      subst hn
      have hfs : firstSeatAt db m r (k + 1) = some seat := hf
      have hseatP : ∃ s ∈ db.seats, s.id = seat.id ∧ s.movie_id = m.id := by
        have hmemf := List.mem_of_find?_eq_some hf
        rcases List.mem_filter.mp hmemf with ⟨hsdb, hsm⟩
        exact ⟨seat, hsdb, rfl, by simpa using hsm⟩
      by_cases hv : (viewedIds db bid).contains seat.id = true
      · rw [if_pos hv] at hmk
        subst hmk
        refine ⟨iff_of_true rfl ⟨seat, hfs, viewed_contains_iff.mp hv⟩, ?_, ?_⟩
        · apply iff_of_false (by decide)
          rintro ⟨s, hfs2, hnb, _⟩
          rw [hfs] at hfs2
          injection hfs2 with hse
          subst hse
          exact hnb (viewed_contains_iff.mp hv)
        · intro h
          rw [hfs] at h
          exact Option.noConfusion h
      · rw [if_neg hv] at hmk
        have hnbid : ¬bookedBy db bid seat.id := by
          intro hb
          exact hv (viewed_contains_iff.mpr hb)
        by_cases ho : (otherIds db m bid).contains seat.id = true
        · rw [if_pos ho] at hmk
          subst hmk
          obtain ⟨hnb, bs, hbs, hsid⟩ := (other_contains_iff hseatP).mp ho
          have hbne : bs.booking_id ≠ bid := by
            intro hbb
            exact hnb ⟨bs, hbs, hbb, hsid⟩
          refine ⟨?_, iff_of_true rfl
            ⟨seat, hfs, hnbid, bs.booking_id, hbne, ⟨bs, hbs, rfl, hsid⟩⟩, ?_⟩
          · apply iff_of_false (by decide)
            rintro ⟨s, hfs2, hb⟩
            rw [hfs] at hfs2
            injection hfs2 with hse
            subst hse
            exact hnbid hb
          · intro h
            rw [hfs] at h
            exact Option.noConfusion h
        · rw [if_neg ho] at hmk
          subst hmk
          refine ⟨?_, ?_, fun _ => rfl⟩
          · apply iff_of_false (by decide)
            rintro ⟨s, hfs2, hb⟩
            rw [hfs] at hfs2
            injection hfs2 with hse
            subst hse
            exact hnbid hb
          · apply iff_of_false (by decide)
            rintro ⟨s, hfs2, hnb, b2, hne2, hb2⟩
            rw [hfs] at hfs2
            injection hfs2 with hse
            subst hse
            rcases hb2 with ⟨bs, hbs, _, hsid⟩
            exact ho ((other_contains_iff hseatP).mpr ⟨hnb, bs, hbs, hsid⟩)

/-- Venue 2x3 with booking 1 holding seat A1 (seat id 1) and booking 2
holding seat B2 (seat id 5). -/
def dbMap : DB :=
  { movies := [⟨1, 2, 3⟩],
    seats := [⟨1, 1, 'A', 1, false⟩, ⟨2, 1, 'A', 2, false⟩, ⟨3, 1, 'A', 3, false⟩,
              ⟨4, 1, 'B', 1, false⟩, ⟨5, 1, 'B', 2, true⟩, ⟨6, 1, 'B', 3, false⟩],
    booking_seats := [⟨1, 1⟩, ⟨2, 5⟩] }

/-- Witness for C8: the classification conjunct applied to the concrete
venue dbMap, viewed booking 1, row B slot 2 (a seat of another booking). -/
theorem claim_C8_witness :
    ('#' : Char) = '#' ↔ ∃ s, firstSeatAt dbMap ⟨1, 2, 3⟩ 'B' 2 = some s ∧
      ¬bookedBy dbMap 1 s.id ∧ ∃ b2, b2 ≠ 1 ∧ bookedBy dbMap b2 s.id :=
  ((claim_C8 dbMap ⟨1, 2, 3⟩ 1).2.2.2 ('B', [(1, '.'), (2, '#'), (3, '.')])
    (by decide) 2 '#' (by decide)).2.1

/-! ### Snapshot invariant and absence of duplicates -/

/-- Data-model invariant of the store (unique_seat_per_movie in models.py):
no two seat records share (movie_id, row_letter, seat_number). -/
def SnapshotOK (db : DB) : Prop :=
  db.seats.Pairwise (fun a b =>
    ¬(a.movie_id = b.movie_id ∧ a.row_letter = b.row_letter ∧ a.seat_number = b.seat_number))

theorem avail_map_num_nodup {db : DB} {mid : Nat} {r : Char} (hok : SnapshotOK db) :
    ((get_available_seats_in_row db mid r).map (fun s => s.seat_number)).Nodup := by
  have hsub : (db.seats.filter fun s =>
      s.movie_id == mid && s.row_letter == r && !s.is_booked).Pairwise
      (fun a b => ¬(a.movie_id = b.movie_id ∧ a.row_letter = b.row_letter ∧
        a.seat_number = b.seat_number)) :=
    hok.sublist (List.filter_sublist _)
  have hnum : (db.seats.filter fun s =>
      s.movie_id == mid && s.row_letter == r && !s.is_booked).Pairwise
      (fun a b => a.seat_number ≠ b.seat_number) := by
    apply List.Pairwise.imp_of_mem ?_ hsub
    intro a b ha hb hr hnum
    rcases List.mem_filter.mp ha with ⟨_, hpa⟩
    rcases List.mem_filter.mp hb with ⟨_, hpb⟩
    simp only [Bool.and_eq_true, beq_iff_eq] at hpa hpb
    exact hr ⟨hpa.1.1.trans hpb.1.1.symm, hpa.1.2.trans hpb.1.2.symm, hnum⟩
  have hperm := sortBySeatNumber_perm (db.seats.filter fun s =>
    s.movie_id == mid && s.row_letter == r && !s.is_booked)
  have hsorted : (get_available_seats_in_row db mid r).Pairwise
      (fun a b => a.seat_number ≠ b.seat_number) :=
    (hperm.pairwise_iff (fun h => h.symm)).mpr hnum
  exact List.pairwise_map.mpr hsorted

theorem nodup_of_pairwise_num {l : List Seat}
    (h : l.Pairwise (fun a b => a.seat_number ≠ b.seat_number)) : l.Nodup :=
  h.imp (fun hne heq => hne (congrArg Seat.seat_number heq))

theorem avail_nodup {db : DB} {mid : Nat} {r : Char} (hok : SnapshotOK db) :
    (get_available_seats_in_row db mid r).Nodup := by
  have := @avail_map_num_nodup db mid r hok
  exact List.Nodup.of_map _ this

theorem rightwardTake_nodup {db : DB} {m : Movie} {sc : Int} {r : Char} {rem : Int}
    (hok : SnapshotOK db) : (rightwardTake db m sc r rem).Nodup := by
  unfold rightwardTake
  apply (List.take_sublist _ _).nodup
  have hnum : ((get_available_seats_in_row db m.id r).filter
      (fun s => sc ≤ (s.seat_number : Int))).Pairwise
      (fun a b => a.seat_number ≠ b.seat_number) := by
    apply List.Pairwise.sublist (List.filter_sublist _)
    exact List.pairwise_map.mp (avail_map_num_nodup hok)
  apply nodup_of_pairwise_num
  exact ((sortBySeatNumber_perm _).pairwise_iff (fun h => h.symm)).mpr hnum

theorem rightwardTake_row {db : DB} {m : Movie} {sc : Int} {r : Char} {rem : Int} {s : Seat}
    (h : s ∈ rightwardTake db m sc r rem) : s ∈ get_available_seats_in_row db m.id r := by
  unfold rightwardTake at h
  have := List.mem_of_mem_take h
  rw [mem_sortBySeatNumber] at this
  exact List.mem_of_mem_filter this

theorem defaultLoop_nodup {db : DB} {m : Movie} :
    ∀ {rows : List Char} {rem : Int},
      (∀ r ∈ rows, ((get_available_seats_in_row db m.id r).map
        (fun s => s.seat_number)).Nodup) →
      rows.Nodup → (defaultLoop db m rows rem).Nodup := by
  intro rows
  induction rows with
  | nil => intro rem _ _; exact List.nodup_nil
  | cons r rs ih =>
    intro rem hnums hnd
    rcases List.nodup_cons.mp hnd with ⟨hr, hrs⟩
    have hnums2 := fun x hx => hnums x (List.mem_cons_of_mem r hx)
    simp only [defaultLoop]
    split
    · exact List.nodup_nil
    · split
      · exact ih hnums2 hrs
      · apply List.Nodup.append
        · exact select_centered_nodup (hnums r (List.mem_cons_self r rs))
        · exact ih hnums2 hrs
        · intro s hs1 hs2
          have h1 := (mem_avail (select_centered_subset hs1)).2.2.1
          rcases defaultLoop_rows hs2 with ⟨r2, hr2, hsr2⟩
          have h2 := (mem_avail hsr2).2.2.1
          rw [h1] at h2
          exact hr (h2 ▸ hr2)

theorem rightwardTake_nodup2 {db : DB} {m : Movie} {sc : Int} {r : Char} {rem : Int}
    (hnum : ((get_available_seats_in_row db m.id r).map (fun s => s.seat_number)).Nodup) :
    (rightwardTake db m sc r rem).Nodup := by
  unfold rightwardTake
  apply (List.take_sublist _ _).nodup
  have hnum2 : ((get_available_seats_in_row db m.id r).filter
      (fun s => sc ≤ (s.seat_number : Int))).Pairwise
      (fun a b => a.seat_number ≠ b.seat_number) := by
    apply List.Pairwise.sublist (List.filter_sublist _)
    exact List.pairwise_map.mp hnum
  apply nodup_of_pairwise_num
  exact ((sortBySeatNumber_perm _).pairwise_iff (fun h => h.symm)).mpr hnum2

theorem positionalLoop_nodup {db : DB} {m : Movie} {sc : Int} :
    ∀ {rows : List Char} {rem : Int} {fl : Bool},
      (∀ r ∈ rows, ((get_available_seats_in_row db m.id r).map
        (fun s => s.seat_number)).Nodup) →
      rows.Nodup → (positionalLoop db m sc rows rem fl).Nodup := by
  intro rows
  induction rows with
  | nil => intro rem fl _ _; exact List.nodup_nil
  | cons r rs ih =>
    intro rem fl hnums hnd
    rcases List.nodup_cons.mp hnd with ⟨hr, hrs⟩
    have hnums2 := fun x hx => hnums x (List.mem_cons_of_mem r hx)
    simp only [positionalLoop]
    split
    · exact List.nodup_nil
    · split
      · exact ih hnums2 hrs
      · split
        · apply List.Nodup.append
          · exact rightwardTake_nodup2 (hnums r (List.mem_cons_self r rs))
          · exact ih hnums2 hrs
          · intro s hs1 hs2
            have h1 := (mem_avail (rightwardTake_row hs1)).2.2.1
            rcases positionalLoop_rows hs2 with ⟨r2, hr2, hsr2⟩
            have h2 := (mem_avail hsr2).2.2.1
            rw [h1] at h2
            exact hr (h2 ▸ hr2)
        · apply List.Nodup.append
          · exact select_centered_nodup (hnums r (List.mem_cons_self r rs))
          · exact ih hnums2 hrs
          · intro s hs1 hs2
            have h1 := (mem_avail (select_centered_subset hs1)).2.2.1
            rcases positionalLoop_rows hs2 with ⟨r2, hr2, hsr2⟩
            have h2 := (mem_avail hsr2).2.2.1
            rw [h1] at h2
            exact hr (h2 ▸ hr2)

theorem get_default_seats_props {db : DB} {mid : Nat} {n : Int} (hok : SnapshotOK db) :
    (get_default_seats db mid n).Nodup ∧
    ∀ s ∈ get_default_seats db mid n,
      s ∈ db.seats ∧ s.movie_id = mid ∧ s.is_booked = false := by
  unfold get_default_seats
  rcases hfind : findMovie db mid with _ | m
  · simp
  · have hmid : m.id = mid := by
      have := List.find?_some hfind
      simpa using this
    constructor
    · apply defaultLoop_nodup (fun r _ => avail_map_num_nodup hok)
      unfold get_row_letters_for_movie
      rw [hfind]
      exact (List.take_sublist _ _).nodup ascii_uppercase_nodup
    · intro s hs
      rcases defaultLoop_rows hs with ⟨r, _, hsr⟩
      have hprops := mem_avail hsr
      exact ⟨hprops.1, hmid ▸ hprops.2.1, hprops.2.2.2⟩

theorem get_seats_from_position_props {db : DB} {mid : Nat} {r : Char} {sc n : Int}
    (hok : SnapshotOK db) :
    (get_seats_from_position db mid r sc n).Nodup ∧
    ∀ s ∈ get_seats_from_position db mid r sc n,
      s ∈ db.seats ∧ s.movie_id = mid ∧ s.is_booked = false := by
  unfold get_seats_from_position
  rcases hfind : findMovie db mid with _ | m
  · simp
  · have hmid : m.id = mid := by
      have := List.find?_some hfind
      simpa using this
    show (match indexOfRow r (List.take m.rows ascii_uppercase) with
      | none => ([] : List Seat)
      | some start_idx =>
          positionalLoop db m sc (List.drop start_idx (List.take m.rows ascii_uppercase)) n
            true).Nodup ∧
      ∀ s ∈ (match indexOfRow r (List.take m.rows ascii_uppercase) with
        | none => ([] : List Seat)
        | some start_idx =>
            positionalLoop db m sc (List.drop start_idx (List.take m.rows ascii_uppercase)) n
              true), s ∈ db.seats ∧ s.movie_id = mid ∧ s.is_booked = false
    rcases hidx : indexOfRow r (List.take m.rows ascii_uppercase) with _ | i
    · simp
    · constructor
      · apply positionalLoop_nodup (fun r _ => avail_map_num_nodup hok)
        exact (List.drop_sublist _ _).nodup
          ((List.take_sublist _ _).nodup ascii_uppercase_nodup)
      · intro s hs
        rcases positionalLoop_rows hs with ⟨r2, _, hsr⟩
        have hprops := mem_avail hsr
        exact ⟨hprops.1, hmid ▸ hprops.2.1, hprops.2.2.2⟩

theorem allocate_success_shape {db : DB} {mid : Nat} {n : Int} {sp : Option String}
    (h : (allocate_seats db mid n sp).success = true) :
    (allocate_seats db mid n sp).seats = get_default_seats db mid n ∨
    ∃ (r : Char) (c : Nat), (allocate_seats db mid n sp).seats =
      get_seats_from_position db mid r (c : Int) n := by
  rcases hfind : findMovie db mid with _ | m
  · rw [show allocate_seats db mid n sp = ⟨false, [], some AllocError.NotFound⟩ from by
      simp only [allocate_seats, hfind]] at h
    simp at h
  · by_cases hcap : (total_available_count db mid : Int) < n
    · rw [show allocate_seats db mid n sp =
          ⟨false, [], some (AllocError.InsufficientCapacity (total_available_count db mid))⟩
        from by simp only [allocate_seats, hfind]; rw [if_pos hcap]] at h
      simp at h
    · rcases sp with _ | p
      · left
        have hres : allocate_seats db mid n none =
            finishAllocation (get_default_seats db mid n) n := by
          simp only [allocate_seats, hfind]
          rw [if_neg hcap]
        rw [hres] at h ⊢
        unfold finishAllocation at h ⊢
        by_cases hlen : ((get_default_seats db mid n).length : Int) < n
        · rw [if_pos hlen] at h
          simp at h
        · rw [if_neg hlen]
      · by_cases hpe : p.data = []
        · left
          have hres : allocate_seats db mid n (some p) =
              finishAllocation (get_default_seats db mid n) n := by
            simp only [allocate_seats, hfind]
            rw [if_neg hcap, if_pos hpe]
          rw [hres] at h ⊢
          unfold finishAllocation at h ⊢
          by_cases hlen : ((get_default_seats db mid n).length : Int) < n
          · rw [if_pos hlen] at h
            simp at h
          · rw [if_neg hlen]
        · rcases hparse : parse_seat_position p with _ | ⟨r, c⟩
          · rw [show allocate_seats db mid n (some p) =
                ⟨false, [], some (AllocError.InvalidFormat p)⟩ from by
              simp only [allocate_seats, hfind]; rw [if_neg hcap, if_neg hpe, hparse]] at h
            simp at h
          · by_cases hrin : r ∈ ascii_uppercase.take m.rows
            · by_cases hcout : c < 1 ∨ m.seats_per_row < c
              · rw [show allocate_seats db mid n (some p) =
                    ⟨false, [], some (AllocError.ColumnOutOfRange c)⟩ from by
                  simp only [allocate_seats, hfind]
                  rw [if_neg hcap, if_neg hpe, hparse]
                  show (if r ∉ ascii_uppercase.take m.rows then _ else _) = _
                  rw [if_neg (by simpa using hrin), if_pos hcout]] at h
                simp at h
              · right
                refine ⟨r, c, ?_⟩
                have hres : allocate_seats db mid n (some p) =
                    finishAllocation (get_seats_from_position db mid r (c : Int) n) n := by
                  simp only [allocate_seats, hfind]
                  rw [if_neg hcap, if_neg hpe, hparse]
                  show (if r ∉ ascii_uppercase.take m.rows then _ else _) = _
                  rw [if_neg (by simpa using hrin), if_neg hcout]
                rw [hres] at h ⊢
                unfold finishAllocation at h ⊢
                by_cases hlen :
                    ((get_seats_from_position db mid r (c : Int) n).length : Int) < n
                · rw [if_pos hlen] at h
                  simp at h
                · rw [if_neg hlen]
            · rw [show allocate_seats db mid n (some p) =
                  ⟨false, [], some (AllocError.RowOutOfRange r)⟩ from by
                simp only [allocate_seats, hfind]
                rw [if_neg hcap, if_neg hpe, hparse]
                show (if r ∉ ascii_uppercase.take m.rows then _ else _) = _
                rw [if_pos hrin]] at h
              simp at h

/-- C9: whenever allocate_seats succeeds — default or positional, with or
without prior bookings — the returned seat list has no seat twice, and every
returned seat belongs to the requested movie and is unbooked in the
snapshot. -/
theorem claim_C9 :
    ∀ (db : DB) (mid : Nat) (n : Int) (sp : Option String),
      SnapshotOK db → (allocate_seats db mid n sp).success = true →
      (allocate_seats db mid n sp).seats.Nodup ∧
      ∀ s ∈ (allocate_seats db mid n sp).seats,
        s ∈ db.seats ∧ s.movie_id = mid ∧ s.is_booked = false := by
  intro db mid n sp hok hsucc
  rcases allocate_success_shape hsucc with hdef | ⟨r, c, hpos⟩
  · rw [hdef]
    exact get_default_seats_props hok
  · rw [hpos]
    exact get_seats_from_position_props hok

/-- Witness for C9: a successful default allocation of 2 seats on a fresh
2x5 venue yields a duplicate-free list of seats of that venue, all
unbooked. -/
theorem claim_C9_witness :
    (allocate_seats (mkFreshDB 2 5) 1 2 none).seats.Nodup ∧
    ∀ s ∈ (allocate_seats (mkFreshDB 2 5) 1 2 none).seats,
      s ∈ (mkFreshDB 2 5).seats ∧ s.movie_id = 1 ∧ s.is_booked = false :=
  claim_C9 (mkFreshDB 2 5) 1 2 none (by unfold SnapshotOK; decide) (by decide)

/-! ### Fresh venues: exact allocation counts -/

/-- Seat records created for one row of a fresh venue
(create_seats_for_movie in main.py:61-75). -/
def freshRowBlock (r : Char) (spr : Nat) : List Seat :=
  (List.range spr).map (fun k => ⟨0, 1, r, k + 1, false⟩)

theorem freshRowBlock_map_num (r : Char) (spr : Nat) :
    (freshRowBlock r spr).map (fun s => s.seat_number) =
      (List.range spr).map (fun k => k + 1) := by
  unfold freshRowBlock
  rw [List.map_map]
  rfl

theorem freshRowBlock_chain (r : Char) (spr : Nat) :
    List.Chain' (fun a b => a.seat_number ≤ b.seat_number) (freshRowBlock r spr) := by
  unfold freshRowBlock
  rw [List.chain'_map]
  apply List.Chain'.imp ?_ ((List.pairwise_lt_range spr).chain')
  intro a b h
  show a + 1 ≤ b + 1
  omega

theorem mkFresh_avail {rows spr : Nat} {r : Char} (hr : r ∈ ascii_uppercase.take rows) :
    get_available_seats_in_row (mkFreshDB rows spr) 1 r = freshRowBlock r spr := by
  have hseats : (mkFreshDB rows spr).seats =
      (ascii_uppercase.take rows).flatMap (fun x => freshRowBlock x spr) := rfl
  unfold get_available_seats_in_row
  rw [hseats, List.filter_flatMap]
  have hsingle : ∀ x ∈ ascii_uppercase.take rows,
      (freshRowBlock x spr).filter
        (fun s => s.movie_id == 1 && s.row_letter == r && !s.is_booked) =
      (if x = r then freshRowBlock x spr else []) := by
    intro x _
    by_cases h : x = r
    · subst h
      rw [if_pos rfl, List.filter_eq_self]
      intro s hs
      rcases List.mem_map.mp hs with ⟨k, _, rfl⟩
      simp
    · rw [if_neg h, List.filter_eq_nil_iff]
      intro s hs
      rcases List.mem_map.mp hs with ⟨k, _, rfl⟩
      simp [h]
  rw [List.flatMap_congr hsingle]
  have hflat : ∀ (l : List Char), l.Nodup → r ∈ l →
      (l.flatMap (fun x => if x = r then freshRowBlock x spr else [])) =
        freshRowBlock r spr := by
    intro l
    induction l with
    | nil => intro _ hmem; exact absurd hmem (List.not_mem_nil r)
    | cons d ds ih =>
      intro hnd hmem
      rcases List.nodup_cons.mp hnd with ⟨hd, hds⟩
      rw [List.flatMap_cons]
      by_cases h : d = r
      · subst h
        rw [if_pos rfl]
        have hnil : ds.flatMap (fun x => if x = d then freshRowBlock x spr else []) = [] := by
          apply List.flatMap_eq_nil_iff.mpr
          intro x hx
          rw [if_neg]
          intro hxe
          exact hd (hxe ▸ hx)
        rw [hnil, List.append_nil]
      · rw [if_neg h, List.nil_append]
        rcases List.mem_cons.mp hmem with heq | hmem2
        · exact absurd heq.symm h
        · exact ih hds hmem2
  rw [hflat (ascii_uppercase.take rows)
    ((List.take_sublist _ _).nodup ascii_uppercase_nodup) hr]
  exact sortBySeatNumber_eq_self (freshRowBlock_chain r spr)

theorem mkFresh_total (rows spr : Nat) :
    total_available_count (mkFreshDB rows spr) 1 = (min rows 26) * spr := by
  unfold total_available_count
  have hseats : (mkFreshDB rows spr).seats =
      (ascii_uppercase.take rows).flatMap (fun x => freshRowBlock x spr) := rfl
  rw [hseats]
  rw [List.filter_eq_self.mpr ?hall]
  case hall =>
    intro s hs
    rcases List.mem_flatMap.mp hs with ⟨x, _, hsx⟩
    rcases List.mem_map.mp hsx with ⟨k, _, rfl⟩
    simp
  rw [List.length_flatMap]
  have hmap : (ascii_uppercase.take rows).map (List.length ∘ fun x => freshRowBlock x spr) =
      (ascii_uppercase.take rows).map (fun _ => spr) := by
    apply List.map_congr_left
    intro x _
    show (freshRowBlock x spr).length = spr
    unfold freshRowBlock
    rw [List.length_map, List.length_range]
  rw [hmap, List.map_const', List.sum_replicate, smul_eq_mul, List.length_take]
  rfl

theorem defaultLoop_length {db : DB} {m : Movie} :
    ∀ (rows : List Char) (rem : Int), 0 ≤ rem →
      (∀ r ∈ rows, ((get_available_seats_in_row db m.id r).map
        (fun s => s.seat_number)).Nodup) →
      rem ≤ (rows.map
        (fun r => ((get_available_seats_in_row db m.id r).length : Int))).sum →
      ((defaultLoop db m rows rem).length : Int) = rem := by
  intro rows
  induction rows with
  | nil =>
    intro rem h0 _ hsum
    simp only [List.map_nil, List.sum_nil] at hsum
    show ((0 : Nat) : Int) = rem
    omega
  | cons r rs ih =>
    intro rem h0 hnums hsum
    rw [List.map_cons, List.sum_cons] at hsum
    have hnums2 := fun x hx => hnums x (List.mem_cons_of_mem r hx)
    have hsumnn : (0 : Int) ≤ (rs.map
        (fun x => ((get_available_seats_in_row db m.id x).length : Int))).sum := by
      apply List.sum_nonneg
      intro x hx
      rcases List.mem_map.mp hx with ⟨y, _, rfl⟩
      exact Int.natCast_nonneg _
    simp only [defaultLoop]
    split
    · rename_i hrem
      show ((0 : Nat) : Int) = rem
      omega
    · rename_i hrem
      split
      · rename_i hav
        apply ih rem h0 hnums2
        rw [hav] at hsum
        simpa using hsum
      · rename_i hav
        have hlenpos : 0 < (get_available_seats_in_row db m.id r).length :=
          List.length_pos.mpr hav
        set t := min rem ((get_available_seats_in_row db m.id r).length : Int) with ht
        have htr : t ≤ rem := min_le_left _ _
        have htl : t ≤ ((get_available_seats_in_row db m.id r).length : Int) :=
          min_le_right _ _
        have hcases : t = rem ∨ t = ((get_available_seats_in_row db m.id r).length : Int) := by
          rcases min_cases rem ((get_available_seats_in_row db m.id r).length : Int) with
            ⟨hmeq, _⟩ | ⟨hmeq, _⟩
          · exact Or.inl hmeq
          · exact Or.inr hmeq
        have h0t : 0 < t := by
          apply lt_min
          · omega
          · exact_mod_cast hlenpos
        have hsel := @select_centered_length (get_available_seats_in_row db m.id r) t
          (get_middle_start_column (m.seats_per_row : Int) t)
          (hnums r (List.mem_cons_self r rs)) h0t htl
        have htnn : ((t.toNat : Nat) : Int) = t := Int.toNat_of_nonneg (le_of_lt h0t)
        rw [List.length_append, hsel, htnn]
        have hrec : ((defaultLoop db m rs (rem - t)).length : Int) = rem - t := by
          apply ih (rem - t) (by omega) hnums2
          rcases hcases with hmeq | hmeq
          · omega
          · omega
        push_cast
        push_cast at hrec
        omega

set_option maxHeartbeats 2000000 in
/-- C5: on a freshly configured venue (no booked seats) with rows ≤ 26 and
numTickets ≤ rows * seats_per_row, default allocation succeeds with exactly
numTickets seats, all distinct and all records of the venue; in particular a
2-row, 5-seat venue allocates 3 tickets as A2, A3, A4. -/
theorem claim_C5 :
    (∀ (rows spr n : Nat), rows ≤ 26 → n ≤ rows * spr →
      (allocate_seats (mkFreshDB rows spr) 1 (n : Int) none).success = true ∧
      (allocate_seats (mkFreshDB rows spr) 1 (n : Int) none).seats.length = n ∧
      (allocate_seats (mkFreshDB rows spr) 1 (n : Int) none).seats.Nodup ∧
      ∀ s ∈ (allocate_seats (mkFreshDB rows spr) 1 (n : Int) none).seats,
        s ∈ (mkFreshDB rows spr).seats ∧ s.movie_id = 1) ∧
    (allocate_seats (mkFreshDB 2 5) 1 3 none).seats.map
        (fun s => (s.row_letter, s.seat_number)) = [('A', 2), ('A', 3), ('A', 4)] := by
  constructor
  · intro rows spr n hrows hn
    have hfind : findMovie (mkFreshDB rows spr) 1 = some ⟨1, rows, spr⟩ := rfl
    have htotal : total_available_count (mkFreshDB rows spr) 1 = rows * spr := by
      rw [mkFresh_total]
      congr 1
      omega
    have hcap : ¬(total_available_count (mkFreshDB rows spr) 1 : Int) < (n : Int) := by
      rw [htotal]
      simp only [not_lt]
      exact_mod_cast hn
    have hres : allocate_seats (mkFreshDB rows spr) 1 (n : Int) none =
        finishAllocation (get_default_seats (mkFreshDB rows spr) 1 (n : Int)) (n : Int) := by
      simp only [allocate_seats, hfind]
      rw [if_neg hcap]
    have hdef : get_default_seats (mkFreshDB rows spr) 1 (n : Int) =
        defaultLoop (mkFreshDB rows spr) ⟨1, rows, spr⟩
          (ascii_uppercase.take rows) (n : Int) := rfl
    have hnums : ∀ r ∈ ascii_uppercase.take rows,
        ((get_available_seats_in_row (mkFreshDB rows spr) 1 r).map
          (fun s => s.seat_number)).Nodup := by
      intro r hr
      rw [mkFresh_avail hr, freshRowBlock_map_num]
      exact List.Nodup.map (fun a b h => by omega) (List.nodup_range spr)
    have hsum : (n : Int) ≤ ((ascii_uppercase.take rows).map
        (fun r => ((get_available_seats_in_row (mkFreshDB rows spr) 1 r).length :
          Int))).sum := by
      have hmap : (ascii_uppercase.take rows).map
          (fun r => ((get_available_seats_in_row (mkFreshDB rows spr) 1 r).length : Int)) =
          (ascii_uppercase.take rows).map (fun _ => (spr : Int)) := by
        apply List.map_congr_left
        intro r hr
        rw [mkFresh_avail hr]
        unfold freshRowBlock
        rw [List.length_map, List.length_range]
      rw [hmap, List.map_const', List.sum_replicate, nsmul_eq_mul, List.length_take]
      have h26 : ascii_uppercase.length = 26 := rfl
      rw [h26]
      have hmin : min rows 26 = rows := by omega
      rw [hmin]
      exact_mod_cast hn
    have hloop : ((defaultLoop (mkFreshDB rows spr) ⟨1, rows, spr⟩
        (ascii_uppercase.take rows) (n : Int)).length : Int) = (n : Int) := by
      apply defaultLoop_length (ascii_uppercase.take rows) (n : Int)
        (Int.natCast_nonneg n) hnums hsum
    rw [hres, hdef]
    unfold finishAllocation
    rw [if_neg (by rw [hloop]; exact lt_irrefl _)]
    refine ⟨rfl, ?_, ?_, ?_⟩
    · exact_mod_cast hloop
    · exact defaultLoop_nodup hnums
        ((List.take_sublist _ _).nodup ascii_uppercase_nodup)
    · intro s hs
      rcases defaultLoop_rows hs with ⟨r, _, hsr⟩
      have hprops := mem_avail hsr
      exact ⟨hprops.1, hprops.2.1⟩
  · decide

set_option maxHeartbeats 2000000 in
/-- Witness for C5: the general statement applied to the 2-row, 5-seat fresh
venue with 3 requested tickets. -/
theorem claim_C5_witness :
    (allocate_seats (mkFreshDB 2 5) 1 ((3 : Nat) : Int) none).success = true ∧
    (allocate_seats (mkFreshDB 2 5) 1 ((3 : Nat) : Int) none).seats.length = 3 ∧
    (allocate_seats (mkFreshDB 2 5) 1 ((3 : Nat) : Int) none).seats.Nodup ∧
    ∀ s ∈ (allocate_seats (mkFreshDB 2 5) 1 ((3 : Nat) : Int) none).seats,
      s ∈ (mkFreshDB 2 5).seats ∧ s.movie_id = 1 :=
  claim_C5.1 2 5 3 (by decide) (by decide)
